import Mathlib

/-!
# hyprland-go: event framing, event dispatch and request batching

A shallow embedding of the two protocol engines of the library.

* `event/event.go`: `EventClient.Receive` (record framing), `processEvent`
  (typed dispatch), `receiveAndProcessEvent` and `EventClient.Subscribe` (the
  subscription loop) are embedded from the source.
* `prepareRequests` and `validateResponse` are exercised by `request_test.go`;
  `request.go`, which holds their bodies, is not among the sources, so they are
  modelled from the specification.

Go strings are byte sequences. Every separator the code splits on (`"\n"`,
`">>"`, `","`) is ASCII, so on text the byte-wise split and the
character-wise split cut at the same places; strings are embedded as lists of
characters.
-/

namespace Hyprland

/-- A Go `string`. -/
abbrev Str := List Char

deriving instance DecidableEq, Repr for Except

/-! ## The parts of Go's `strings` package that the code calls -/

/-- Go `strings.Cut(s, sep)` for a non-empty `sep`: the text before and after
the first (leftmost) occurrence of `sep` in `s`, or `none` when `sep` does not
occur. -/
def Cut (sep : Str) : Str → Option (Str × Str)
  | [] => none
  | c :: cs =>
    if sep.isPrefixOf (c :: cs) then some ([], (c :: cs).drop sep.length)
    else
      match Cut sep cs with
      | none => none
      | some (before, after) => some (c :: before, after)

/-- The loop of Go's `genSplit`: cut at the leftmost separator, keep the text
before it, continue on the text after it; the last piece is what remains. The
first argument bounds the number of cuts. -/
def splitLoop (sep : Str) : Nat → Str → List Str
  | 0, s => [s]
  | n + 1, s =>
    match Cut sep s with
    | none => [s]
    | some (before, after) => before :: splitLoop sep n after

/-- Go `strings.Split(s, sep)`. With an empty separator the string is exploded
into its characters; otherwise it is cut at every non-overlapping occurrence of
`sep`, scanning from the left. A string of length `n` holds at most `n`
occurrences, which bounds the loop. -/
def Split (s sep : Str) : List Str :=
  if sep = [] then s.map (fun c => [c]) else splitLoop sep s.length s

/-! ## `event/event.go` -/

/-- Constant `sep` of `event.go`. -/
def sep : Str := ">>".toList

/-- The newline separator `"\n"` of `Receive`. -/
def newline : Str := "\n".toList

/-- The field separator `","` of `processEvent`. -/
def comma : Str := ",".toList

/-- Go `ReceivedData`: an event type and its raw payload. -/
structure ReceivedData where
  /-- Field `Type` (an `EventType`, a string); `Type` is reserved in Lean. -/
  Typ : Str
  /-- Field `Data` (a `RawData`, a string). -/
  Data : Str
  deriving DecidableEq, Repr

/-- A Go runtime panic. The only one the embedded code can raise is an index
out of range on a slice. -/
inductive RuntimeError where
  | indexOutOfRange
  deriving DecidableEq, Repr

/-- The `for _, event := range raw` loop of `Receive` (event.go lines 69-83);
`recv` is the slice built so far. Indexing a slice past its length panics. -/
def receiveLoop (recv : List ReceivedData) : List Str → Except RuntimeError (List ReceivedData)
  | [] => .ok recv
  | event :: raw =>
    if event = [] then receiveLoop recv raw
    else
      let split := Split event sep
      match split[0]? with
      | none => .error .indexOutOfRange
      | some s0 =>
        if s0 = [] then receiveLoop recv raw
        else
          match split[1]? with
          | none => .error .indexOutOfRange
          | some s1 =>
            if s1 = [] ∨ s1 = comma then receiveLoop recv raw
            else receiveLoop (recv ++ [{ Typ := s0, Data := s1 }]) raw

/-- The record parsing of `Receive` (event.go lines 67-85) on the chunk read
from the socket. -/
def parseChunk (chunk : Str) : Except RuntimeError (List ReceivedData) :=
  receiveLoop [] (Split chunk newline)

/-- Go `EventClient.Receive`: `read` is the outcome of the socket read, either
a read error or the bytes read. A read error is returned wrapped; otherwise the
chunk is parsed. -/
def Receive {ε : Type} (read : Except ε Str) :
    Except ε (Except RuntimeError (List ReceivedData)) :=
  match read with
  | .error e => .error e
  | .ok chunk => .ok (parseChunk chunk)

/-- The constants of type `EventType` that `processEvent` switches on. They are
declared in `event_types.go`, which is not among the sources, so the embedding
takes their values as a parameter. -/
structure EventTypes where
  EventWorkspace : Str
  EventFocusedMonitor : Str
  EventActiveWindow : Str
  EventFullscreen : Str
  EventMonitorRemoved : Str
  EventMonitorAdded : Str
  EventCreateWorkspace : Str
  EventDestroyWorkspace : Str
  EventMoveWorkspace : Str
  EventActiveLayout : Str
  EventOpenWindow : Str
  EventCloseWindow : Str
  EventMoveWindow : Str
  EventOpenLayer : Str
  EventCloseLayer : Str
  EventSubMap : Str
  EventScreencast : Str
  deriving DecidableEq, Repr

/-- The 17 constants in the order of the `case` clauses of `processEvent`. -/
def EventTypes.all (evs : EventTypes) : List Str :=
  [evs.EventWorkspace, evs.EventFocusedMonitor, evs.EventActiveWindow, evs.EventFullscreen,
   evs.EventMonitorRemoved, evs.EventMonitorAdded, evs.EventCreateWorkspace,
   evs.EventDestroyWorkspace, evs.EventMoveWorkspace, evs.EventActiveLayout,
   evs.EventOpenWindow, evs.EventCloseWindow, evs.EventMoveWindow, evs.EventOpenLayer,
   evs.EventCloseLayer, evs.EventSubMap, evs.EventScreencast]

/-- The constants are pairwise distinct: Go rejects a `switch` that lists the
same constant in two `case` clauses, and `processEvent` compiles. -/
def EventTypes.Distinct (evs : EventTypes) : Prop := evs.all.Nodup

instance (evs : EventTypes) : Decidable evs.Distinct :=
  inferInstanceAs (Decidable evs.all.Nodup)

/-- The names Hyprland's event socket uses for the 17 event types, an instance
of the constants at which the theorems are instantiated. -/
def hyprlandEventTypes : EventTypes where
  EventWorkspace := "workspace".toList
  EventFocusedMonitor := "focusedmon".toList
  EventActiveWindow := "activewindow".toList
  EventFullscreen := "fullscreen".toList
  EventMonitorRemoved := "monitorremoved".toList
  EventMonitorAdded := "monitoradded".toList
  EventCreateWorkspace := "createworkspace".toList
  EventDestroyWorkspace := "destroyworkspace".toList
  EventMoveWorkspace := "moveworkspace".toList
  EventActiveLayout := "activelayout".toList
  EventOpenWindow := "openwindow".toList
  EventCloseWindow := "closewindow".toList
  EventMoveWindow := "movewindow".toList
  EventOpenLayer := "openlayer".toList
  EventCloseLayer := "closelayer".toList
  EventSubMap := "submap".toList
  EventScreencast := "screencast".toList

/-- One call of a method of the `EventHandler` interface, with its argument.
The handler `ev` passed to `processEvent` is embedded by the sequence of calls
made on it. -/
inductive HandlerCall where
  | Workspace (w : Str)
  | FocusedMonitor (MonitorName WorkspaceName : Str)
  | ActiveWindow (Name Title : Str)
  | Fullscreen (f : Bool)
  | MonitorRemoved (m : Str)
  | MonitorAdded (m : Str)
  | CreateWorkspace (w : Str)
  | DestroyWorkspace (w : Str)
  | MoveWorkspace (WorkspaceName MonitorName : Str)
  | ActiveLayout (Typ Name : Str)
  | OpenWindow (Address WorkspaceName Class Title : Str)
  | CloseWindow (Address : Str)
  | MoveWindow (Address WorkspaceName : Str)
  | OpenLayer (l : Str)
  | CloseLayer (l : Str)
  | SubMap (s : Str)
  | Screencast (Sharing : Bool) (Owner : Str)
  deriving DecidableEq, Repr

/-- Go slice indexing `raw[i]`: panics when `i` is not below the length. -/
def index (raw : List Str) (i : Nat) : Except RuntimeError Str :=
  match raw[i]? with
  | some x => .ok x
  | none => .error .indexOutOfRange

/-- The `switch event` of `processEvent` (event.go lines 121-197): the handler
call made for `event` on the fields `raw`, `none` when no `case` matches, an
error when a field index is out of range. The first matching `case` is taken;
the arguments are evaluated before the call. -/
def processEventSwitch (evs : EventTypes) (event : Str) (raw : List Str) :
    Except RuntimeError (Option HandlerCall) :=
  if event = evs.EventWorkspace then do
    let r0 ← index raw 0
    pure (some (.Workspace r0))
  else if event = evs.EventFocusedMonitor then do
    let r0 ← index raw 0
    let r1 ← index raw 1
    pure (some (.FocusedMonitor r0 r1))
  else if event = evs.EventActiveWindow then do
    let r0 ← index raw 0
    let r1 ← index raw 1
    pure (some (.ActiveWindow r0 r1))
  else if event = evs.EventFullscreen then do
    let r0 ← index raw 0
    pure (some (.Fullscreen (decide (r0 = "1".toList))))
  else if event = evs.EventMonitorRemoved then do
    let r0 ← index raw 0
    pure (some (.MonitorRemoved r0))
  else if event = evs.EventMonitorAdded then do
    let r0 ← index raw 0
    pure (some (.MonitorAdded r0))
  else if event = evs.EventCreateWorkspace then do
    let r0 ← index raw 0
    pure (some (.CreateWorkspace r0))
  else if event = evs.EventDestroyWorkspace then do
    let r0 ← index raw 0
    pure (some (.DestroyWorkspace r0))
  else if event = evs.EventMoveWorkspace then do
    let r0 ← index raw 0
    let r1 ← index raw 1
    pure (some (.MoveWorkspace r0 r1))
  else if event = evs.EventActiveLayout then do
    let r0 ← index raw 0
    let r1 ← index raw 1
    pure (some (.ActiveLayout r0 r1))
  else if event = evs.EventOpenWindow then do
    let r0 ← index raw 0
    let r1 ← index raw 1
    let r2 ← index raw 2
    let r3 ← index raw 3
    pure (some (.OpenWindow r0 r1 r2 r3))
  else if event = evs.EventCloseWindow then do
    let r0 ← index raw 0
    pure (some (.CloseWindow r0))
  else if event = evs.EventMoveWindow then do
    let r0 ← index raw 0
    let r1 ← index raw 1
    pure (some (.MoveWindow r0 r1))
  else if event = evs.EventOpenLayer then do
    let r0 ← index raw 0
    pure (some (.OpenLayer r0))
  else if event = evs.EventCloseLayer then do
    let r0 ← index raw 0
    pure (some (.CloseLayer r0))
  else if event = evs.EventSubMap then do
    let r0 ← index raw 0
    pure (some (.SubMap r0))
  else if event = evs.EventScreencast then do
    let r0 ← index raw 0
    let r1 ← index raw 1
    pure (some (.Screencast (decide (r0 = "1".toList)) r1))
  else pure none

/-- What a run of `processEvent` did: the handler calls it made, in order, and
the panic that ended it, if any. -/
structure Run where
  calls : List HandlerCall
  panic : Option RuntimeError
  deriving DecidableEq, Repr

/-- The `for _, event := range events` loop of `processEvent` (event.go lines
118-199); `calls` are the handler calls made so far. The payload is split on
`","` in every iteration; the switch runs only when the subscribed type equals
the type of the message. -/
def processLoop (evs : EventTypes) (msg : ReceivedData) (calls : List HandlerCall) :
    List Str → Run
  | [] => { calls := calls, panic := none }
  | event :: events =>
    let raw := Split msg.Data comma
    if msg.Typ = event then
      match processEventSwitch evs event raw with
      | .error e => { calls := calls, panic := some e }
      | .ok none => processLoop evs msg calls events
      | .ok (some call) => processLoop evs msg (calls ++ [call]) events
    else processLoop evs msg calls events

/-- Go `processEvent(ev, msg, events)`. -/
def processEvent (evs : EventTypes) (msg : ReceivedData) (events : List Str) : Run :=
  processLoop evs msg [] events

/-- The `for _, data := range msg` loop of `receiveAndProcessEvent` (event.go
lines 110-112): `processEvent` runs on every message in turn, on the same
handler, so its calls are appended to those made so far; a panic of
`processEvent` ends the loop. -/
def dispatchLoop (evs : EventTypes) (events : List Str) (calls : List HandlerCall) :
    List ReceivedData → Run
  | [] => { calls := calls, panic := none }
  | data :: msg =>
    let run := processEvent evs data events
    match run.panic with
    | some e => { calls := calls ++ run.calls, panic := some e }
    | none => dispatchLoop evs events (calls ++ run.calls) msg

/-- How a call of a Go function with result type `error` ended: it returned an
error value (`none` is `nil`) or it panicked. -/
inductive Outcome (ε : Type) where
  | returned (err : Option ε)
  | panicked (e : RuntimeError)
  deriving DecidableEq, Repr

/-- What a run of `receiveAndProcessEvent` did: the handler calls it made, in
order, and how it ended. -/
structure Dispatch (ε : Type) where
  calls : List HandlerCall
  outcome : Outcome ε
  deriving DecidableEq, Repr

/-- Go `receiveAndProcessEvent(c, ev, events...)`; `received` is what
`c.Receive()` does when called: it returns an error, panics, or returns the
messages. An error is returned as it is; otherwise every message is processed
and `nil` is returned. -/
def receiveAndProcessEvent {ε : Type} (evs : EventTypes)
    (received : Except ε (Except RuntimeError (List ReceivedData))) (events : List Str) :
    Dispatch ε :=
  match received with
  | .error err => { calls := [], outcome := .returned (some err) }
  | .ok (.error e) => { calls := [], outcome := .panicked e }
  | .ok (.ok msg) =>
    let run := dispatchLoop evs events [] msg
    match run.panic with
    | some e => { calls := run.calls, outcome := .panicked e }
    | none => { calls := run.calls, outcome := .returned none }

/-- What one iteration of the loop of `Subscribe` meets: the value of
`c.ctx.Err()` at its start (`none` is `nil`) and what `c.Receive()` does if the
iteration calls it. -/
structure Iteration (ε κ : Type) where
  ctxErr : Option κ
  received : Except ε (Except RuntimeError (List ReceivedData))

/-- The errors `Subscribe` builds with `fmt.Errorf`, each wrapping its
cause. -/
inductive SubscribeError (ε κ : Type) where
  /-- `"context is done: %w"`, wrapping the error of the context. -/
  | contextDone (cause : κ)
  /-- `"error during event processing: %w"`, wrapping the error of
  `receiveAndProcessEvent`. -/
  | eventProcessing (cause : ε)
  deriving DecidableEq, Repr

/-- What a run of `Subscribe` did over the iterations given: the handler calls
made, the number of calls of `Receive`, and how it ended; `outcome = none`
means that the loop is still running after those iterations. -/
structure SubscribeRun (ε κ : Type) where
  calls : List HandlerCall
  receives : Nat
  outcome : Option (Outcome (SubscribeError ε κ))
  deriving DecidableEq, Repr

/-- The `for` loop of `Subscribe` (event.go lines 92-101) over the iterations
given, from the calls and the number of receives so far. The context is checked
first; only when it is not done are the events received and processed. -/
def subscribeLoop {ε κ : Type} (evs : EventTypes) (events : List Str)
    (calls : List HandlerCall) (receives : Nat) : List (Iteration ε κ) → SubscribeRun ε κ
  | [] => { calls := calls, receives := receives, outcome := none }
  | it :: rest =>
    match it.ctxErr with
    | some err =>
      { calls := calls, receives := receives,
        outcome := some (.returned (some (.contextDone err))) }
    | none =>
      let d := receiveAndProcessEvent evs it.received events
      match d.outcome with
      | .returned (some err) =>
        { calls := calls ++ d.calls, receives := receives + 1,
          outcome := some (.returned (some (.eventProcessing err))) }
      | .returned none => subscribeLoop evs events (calls ++ d.calls) (receives + 1) rest
      | .panicked e =>
        { calls := calls ++ d.calls, receives := receives + 1,
          outcome := some (.panicked e) }

/-- Go `EventClient.Subscribe(ev, events...)`, run over the iterations
given. -/
def Subscribe {ε κ : Type} (evs : EventTypes) (events : List Str)
    (script : List (Iteration ε κ)) : SubscribeRun ε κ :=
  subscribeLoop evs events [] 0 script

/-! ## The request engine (`request.go`) -/

/-- Modelled from the spec: the maximum batch size, "a fixed maximum batch size
(30)"; `request.go` is not among the sources. -/
def batchSize : Nat := 30

/-- Modelled from the spec: the marker that opens a batch frame,
`"[[BATCH]]"`; `request.go` is not among the sources. -/
def batchMarker : Str := "[[BATCH]]".toList

/-- Modelled from the spec: the partition of the parameters "into consecutive
groups of at most a fixed maximum batch size": as long as parameters remain,
the next group takes up to `batchSize` of them. The first argument bounds the
number of groups. `request.go` is not among the sources. -/
def batchLoop : Nat → List Str → List (List Str)
  | 0, _ => []
  | n + 1, params =>
    match params with
    | [] => []
    | p :: ps => (p :: ps).take batchSize :: batchLoop n ((p :: ps).drop batchSize)

/-- Modelled from the spec: one batch frame
`"[[BATCH]]<command> <param_i>;<command> <param_j>;...;"`, every parameter of
the group paired with the command and followed by `;`. `request.go` is not
among the sources. -/
def batchFrame (command : Str) (group : List Str) : Str :=
  batchMarker ++ (group.map (fun p => command ++ " ".toList ++ p ++ ";".toList)).flatten

/-- Modelled from the spec: `prepareRequests(command, params)` of `request.go`,
which is not among the sources. No parameter gives the command alone, one
parameter gives `"<command> <param>"`, two or more give one batch frame per
group of at most `batchSize` parameters. -/
def prepareRequests (command : Str) (params : List Str) : List Str :=
  match params with
  | [] => [command]
  | [p] => [command ++ " ".toList ++ p]
  | _ => (batchLoop params.length params).map (batchFrame command)

/-- Go `unicode.IsSpace`: the characters with Unicode's White_Space
property. -/
def isSpace (c : Char) : Bool :=
  let n := c.toNat
  (9 ≤ n ∧ n ≤ 13) ∨ n = 32 ∨ n = 133 ∨ n = 160 ∨ n = 5760 ∨ (8192 ≤ n ∧ n ≤ 8202) ∨
    n = 8232 ∨ n = 8233 ∨ n = 8239 ∨ n = 8287 ∨ n = 12288

/-- Go `strings.TrimSpace`: the string without its leading and trailing white
space. -/
def TrimSpace (s : Str) : Str :=
  ((s.dropWhile isSpace).reverse.dropWhile isSpace).reverse

/-- The loop of Go's `strings.Count`: cut after the leftmost occurrence and
count on. The first argument bounds the number of cuts. -/
def countLoop (substr : Str) : Nat → Str → Nat
  | 0, _ => 0
  | n + 1, s =>
    match Cut substr s with
    | none => 0
    | some (_, after) => 1 + countLoop substr n after

/-- Go `strings.Count(s, substr)` for a non-empty `substr`: the number of
non-overlapping occurrences of `substr` in `s`. -/
def Count (s substr : Str) : Nat := countLoop substr s.length s

/-- The error of a rejected command. -/
inductive RequestError where
  | commandRejected
  deriving DecidableEq, Repr

/-- Modelled from the spec: `validateResponse(params, response)` of
`request.go`, which is not among the sources; `validate` is the `Validate`
field of the client. It only runs when validation is enabled: it trims the
response, counts the success marker `"ok"` in it, and fails when the count is
strictly less than the number of parameters. -/
def validateResponse (validate : Bool) (params : List Str) (response : Str) :
    Except RequestError Unit :=
  if validate then
    if Count (TrimSpace response) "ok".toList < params.length then .error .commandRejected
    else .ok ()
  else .ok ()

/-! ## Notions the statements use -/

/-- The type prefix of a record: the text before its first `>>` (the whole
record when it holds none). -/
def typePrefix (r : Str) : Str :=
  match Cut sep r with
  | none => r
  | some (before, _) => before

/-- The payload of a record: the text between its first and its second `>>`,
or from the first `>>` to the end of the record. -/
def payloadOf (r : Str) : Str :=
  match Cut sep r with
  | none => []
  | some (_, after) =>
    match Cut sep after with
    | none => after
    | some (before, _) => before

/-- What one record contributes to the result of `Receive`, read off the
discard rules: nothing when the record is empty, its type prefix is empty, its
payload is empty or its payload is a bare comma; otherwise one event. -/
def recordEvent (r : Str) : Option ReceivedData :=
  if r = [] ∨ typePrefix r = [] ∨ payloadOf r = [] ∨ payloadOf r = comma then none
  else some { Typ := typePrefix r, Data := payloadOf r }

/-- The 17 event types named by the payload decoding table. -/
inductive EventKind where
  | workspace
  | focusedMonitor
  | activeWindow
  | fullscreen
  | monitorRemoved
  | monitorAdded
  | createWorkspace
  | destroyWorkspace
  | moveWorkspace
  | activeLayout
  | openWindow
  | closeWindow
  | moveWindow
  | openLayer
  | closeLayer
  | subMap
  | screencast
  deriving DecidableEq, Repr

/-- The `EventType` constant of an event type. -/
def EventTypes.name (evs : EventTypes) : EventKind → Str
  | .workspace => evs.EventWorkspace
  | .focusedMonitor => evs.EventFocusedMonitor
  | .activeWindow => evs.EventActiveWindow
  | .fullscreen => evs.EventFullscreen
  | .monitorRemoved => evs.EventMonitorRemoved
  | .monitorAdded => evs.EventMonitorAdded
  | .createWorkspace => evs.EventCreateWorkspace
  | .destroyWorkspace => evs.EventDestroyWorkspace
  | .moveWorkspace => evs.EventMoveWorkspace
  | .activeLayout => evs.EventActiveLayout
  | .openWindow => evs.EventOpenWindow
  | .closeWindow => evs.EventCloseWindow
  | .moveWindow => evs.EventMoveWindow
  | .openLayer => evs.EventOpenLayer
  | .closeLayer => evs.EventCloseLayer
  | .subMap => evs.EventSubMap
  | .screencast => evs.EventScreencast

/-- The number of comma-separated fields the decoding of an event type
reads. -/
def requiredFields : EventKind → Nat
  | .focusedMonitor | .activeWindow | .moveWorkspace | .activeLayout | .moveWindow
  | .screencast => 2
  | .openWindow => 4
  | _ => 1

/-- Field `i` of a payload split on `","` (empty when there is no such
field). -/
def field (raw : List Str) (i : Nat) : Str := raw.getD i []

/-- The payload decoding table, row by row: the handler method of each event
type and the fields it receives, by position. -/
def decodeTable : EventKind → List Str → HandlerCall
  | .workspace, raw => .Workspace (field raw 0)
  | .focusedMonitor, raw => .FocusedMonitor (field raw 0) (field raw 1)
  | .activeWindow, raw => .ActiveWindow (field raw 0) (field raw 1)
  | .fullscreen, raw => .Fullscreen (decide (field raw 0 = "1".toList))
  | .monitorRemoved, raw => .MonitorRemoved (field raw 0)
  | .monitorAdded, raw => .MonitorAdded (field raw 0)
  | .createWorkspace, raw => .CreateWorkspace (field raw 0)
  | .destroyWorkspace, raw => .DestroyWorkspace (field raw 0)
  | .moveWorkspace, raw => .MoveWorkspace (field raw 0) (field raw 1)
  | .activeLayout, raw => .ActiveLayout (field raw 0) (field raw 1)
  | .openWindow, raw => .OpenWindow (field raw 0) (field raw 1) (field raw 2) (field raw 3)
  | .closeWindow, raw => .CloseWindow (field raw 0)
  | .moveWindow, raw => .MoveWindow (field raw 0) (field raw 1)
  | .openLayer, raw => .OpenLayer (field raw 0)
  | .closeLayer, raw => .CloseLayer (field raw 0)
  | .subMap, raw => .SubMap (field raw 0)
  | .screencast, raw => .Screencast (decide (field raw 0 = "1".toList)) (field raw 1)

/-- The 17 event types, in the order of the `case` clauses. -/
def EventKind.all : List EventKind :=
  [.workspace, .focusedMonitor, .activeWindow, .fullscreen, .monitorRemoved, .monitorAdded,
   .createWorkspace, .destroyWorkspace, .moveWorkspace, .activeLayout, .openWindow,
   .closeWindow, .moveWindow, .openLayer, .closeLayer, .subMap, .screencast]

/-! # Theorems -/

/-! ## Lemmas on `Cut` and `Split` -/

theorem cut_cons (sp : Str) (c : Char) (cs : Str) :
    Cut sp (c :: cs) =
      if sp.isPrefixOf (c :: cs) then some ([], (c :: cs).drop sp.length)
      else
        match Cut sp cs with
        | none => none
        | some (before, after) => some (c :: before, after) := by
  rw [Cut]

theorem cut_sound (sp : Str) : ∀ (s b a : Str), Cut sp s = some (b, a) → s = b ++ (sp ++ a)
  | [], b, a, h => by simp [Cut] at h
  | c :: cs, b, a, h => by
    unfold Cut at h
    split_ifs at h with hp
    · simp only [Option.some.injEq, Prod.mk.injEq] at h
      obtain ⟨rfl, rfl⟩ := h
      have hp2 : sp <+: c :: cs := List.isPrefixOf_iff_prefix.mp hp
      simpa using (List.prefix_iff_eq_append.mp hp2).symm
    · cases hc : Cut sp cs with
      | none => simp [hc] at h
      | some ba =>
        obtain ⟨b1, a1⟩ := ba
        simp only [hc, Option.some.injEq, Prod.mk.injEq] at h
        obtain ⟨rfl, rfl⟩ := h
        have := cut_sound sp cs b1 a1 hc
        simp [this]

theorem cut_append (sp a : Str) : ∀ (b : Str),
    (∀ q, q ≠ [] → q <:+ b → ¬ sp <+: q ++ (sp ++ a)) → sp ≠ [] →
    Cut sp (b ++ (sp ++ a)) = some (b, a)
  | [], _, hne => by
    obtain ⟨x, xs, rfl⟩ := List.exists_cons_of_ne_nil hne
    have : (x :: xs).isPrefixOf (x :: (xs ++ a)) = true :=
      List.isPrefixOf_iff_prefix.mpr ⟨a, by simp⟩
    rw [List.nil_append, List.cons_append, cut_cons, if_pos this]
    simp
  | y :: b, h, hne => by
    have h1 : ¬ sp.isPrefixOf (y :: (b ++ (sp ++ a))) = true := by
      intro hp
      exact h (y :: b) (by simp) (List.suffix_refl _) (List.isPrefixOf_iff_prefix.mp hp)
    have h2 := cut_append sp a b
      (fun q hq hs => h q hq (hs.trans (List.suffix_cons y b))) hne
    rw [List.cons_append, cut_cons, if_neg h1, h2]

theorem cut_none_of_absent (sp : Str) : ∀ (s : Str), ¬ sp <:+: s → Cut sp s = none
  | [], _ => by simp [Cut]
  | c :: cs, h => by
    have h1 : ¬ sp.isPrefixOf (c :: cs) = true := fun hp =>
      h (List.isPrefixOf_iff_prefix.mp hp).isInfix
    have h2 := cut_none_of_absent sp cs
      (fun hi => h (hi.trans (List.suffix_cons c cs).isInfix))
    rw [cut_cons, if_neg h1, h2]

theorem cut_isSome_of_present (sp s : Str) (hne : sp ≠ []) (h : sp <:+: s) :
    ∃ b a, Cut sp s = some (b, a) := by
  obtain ⟨p, q, rfl⟩ := h
  induction p with
  | nil =>
    obtain ⟨x, xs, rfl⟩ := List.exists_cons_of_ne_nil hne
    have : (x :: xs).isPrefixOf (x :: (xs ++ q)) = true :=
      List.isPrefixOf_iff_prefix.mpr ⟨q, by simp⟩
    refine ⟨[], List.drop (x :: xs).length (x :: (xs ++ q)), ?_⟩
    rw [List.nil_append, List.cons_append, cut_cons, if_pos this]
  | cons y p ih =>
    obtain ⟨b, a, hba⟩ := ih
    simp only [List.cons_append, List.append_assoc] at hba ⊢
    unfold Cut
    split_ifs
    · exact ⟨_, _, rfl⟩
    · rw [hba]; exact ⟨_, _, rfl⟩

theorem splitLoop_fuel (sp : Str) (hne : sp ≠ []) : ∀ (n : Nat) (s : Str), s.length ≤ n →
    splitLoop sp n s = splitLoop sp s.length s
  | 0, s, h => by
    have : s.length = 0 := by omega
    rw [this]
  | n + 1, s, h => by
    cases hl : s.length with
    | zero =>
      have hs : s = [] := List.length_eq_zero.mp hl
      subst hs
      simp [splitLoop, Cut]
    | succ m =>
      cases hc : Cut sp s with
      | none => simp [splitLoop, hc]
      | some ba =>
        obtain ⟨b, a⟩ := ba
        have hs := cut_sound sp s b a hc
        have hsp : 0 < sp.length := List.length_pos.mpr hne
        have hlen : a.length ≤ m := by
          have := congrArg List.length hs
          simp at this
          omega
        simp only [splitLoop, hc]
        rw [splitLoop_fuel sp hne n a (by omega), splitLoop_fuel sp hne m a hlen]

theorem split_of_cut_none (sp s : Str) (hne : sp ≠ []) (h : Cut sp s = none) :
    Split s sp = [s] := by
  unfold Split
  rw [if_neg hne]
  cases hl : s.length with
  | zero => simp [splitLoop]
  | succ m => simp [splitLoop, h]

theorem split_of_cut_some (sp s b a : Str) (hne : sp ≠ []) (h : Cut sp s = some (b, a)) :
    Split s sp = b :: Split a sp := by
  have hs := cut_sound sp s b a h
  have hsp : 0 < sp.length := List.length_pos.mpr hne
  unfold Split
  rw [if_neg hne, if_neg hne]
  cases hl : s.length with
  | zero =>
    have := congrArg List.length hs
    simp at this
    omega
  | succ m =>
    have hlen : a.length ≤ m := by
      have := congrArg List.length hs
      simp at this
      omega
    simp only [splitLoop, h]
    rw [splitLoop_fuel sp hne m a hlen]


/-! ### The separators of the event socket -/

theorem sep_ne_nil : sep ≠ [] := by decide

theorem newline_ne_nil : newline ≠ [] := by decide

theorem comma_ne_nil : comma ≠ [] := by decide

theorem not_mem_of_singleton_absent (c : Char) (s : Str) (h : ¬ [c] <:+: s) : c ∉ s := by
  intro hm
  obtain ⟨p, q, rfl⟩ := List.append_of_mem hm
  exact h ⟨p, q, by simp⟩

/-- Cutting at a one-character separator that does not occur in the text
before it. -/
theorem cut_singleton (c : Char) (b a : Str) (h : ¬ [c] <:+: b) :
    Cut [c] (b ++ ([c] ++ a)) = some (b, a) := by
  apply cut_append
  · intro q hq hs hp
    obtain ⟨y, q1, rfl⟩ := List.exists_cons_of_ne_nil hq
    have hy : y ∈ b := hs.subset (List.mem_cons_self y q1)
    have hc : c = y := by
      obtain ⟨r, hr⟩ := hp
      simp at hr
      exact hr.1
    exact not_mem_of_singleton_absent c b h (hc ▸ hy)
  · simp

/-- Cutting at `>>` when the text before it holds no `>>` and does not end in
`>`: the leftmost separator is the one written after that text. -/
theorem cut_sep (t p : Str) (h1 : ¬ sep <:+: t) (h2 : ¬ ">".toList <:+ t) :
    Cut sep (t ++ (sep ++ p)) = some (t, p) := by
  apply cut_append
  · intro q hq hs hp
    obtain ⟨y, q1, rfl⟩ := List.exists_cons_of_ne_nil hq
    cases q1 with
    | nil =>
      obtain ⟨r, hr⟩ := hp
      simp [sep] at hr
      apply h2
      have hy : y = '>' := hr.1.symm
      subst hy
      exact hs
    | cons z q2 =>
      obtain ⟨r, hr⟩ := hp
      simp [sep] at hr
      apply h1
      obtain ⟨hy, hz, _⟩ := hr
      subst hy hz
      have hpre : sep <+: '>' :: '>' :: q2 := ⟨q2, by simp [sep]⟩
      exact hpre.isInfix.trans hs.isInfix
  · exact sep_ne_nil

/-- A record `type>>payload` whose type holds no `>>` and does not end in `>`
and whose payload holds no `>>` splits into exactly its type and payload. -/
theorem split_record (t p : Str) (h1 : ¬ sep <:+: t) (h2 : ¬ ">".toList <:+ t)
    (h3 : ¬ sep <:+: p) : Split (t ++ (sep ++ p)) sep = [t, p] := by
  rw [split_of_cut_some sep _ t p sep_ne_nil (cut_sep t p h1 h2),
    split_of_cut_none sep p sep_ne_nil (cut_none_of_absent sep p h3)]

/-- Splitting a chunk on newline peels off a first line that holds no
newline. -/
theorem split_line (b rest : Str) (h : ¬ newline <:+: b) :
    Split (b ++ (newline ++ rest)) newline = b :: Split rest newline :=
  split_of_cut_some newline _ b rest newline_ne_nil (cut_singleton _ b rest h)

/-! ### Text before the first separator and text between the first two -/

theorem split_zero (r : Str) : (Split r sep)[0]? = some (typePrefix r) := by
  unfold typePrefix
  cases hc : Cut sep r with
  | none => simp [split_of_cut_none sep r sep_ne_nil hc]
  | some ba =>
    obtain ⟨b, a⟩ := ba
    simp [split_of_cut_some sep r b a sep_ne_nil hc]

theorem split_one_of_present (r : Str) (h : sep <:+: r) :
    (Split r sep)[1]? = some (payloadOf r) := by
  obtain ⟨b, a, hc⟩ := cut_isSome_of_present sep r sep_ne_nil h
  unfold payloadOf
  rw [split_of_cut_some sep r b a sep_ne_nil hc]
  simp only [hc]
  cases hc2 : Cut sep a with
  | none => simp [split_of_cut_none sep a sep_ne_nil hc2]
  | some ba =>
    obtain ⟨b2, a2⟩ := ba
    simp [split_of_cut_some sep a b2 a2 sep_ne_nil hc2]

theorem split_one_of_absent (r : Str) (h : ¬ sep <:+: r) : (Split r sep)[1]? = none := by
  rw [split_of_cut_none sep r sep_ne_nil (cut_none_of_absent sep r h)]
  simp

theorem typePrefix_of_absent (r : Str) (h : ¬ sep <:+: r) : typePrefix r = r := by
  simp [typePrefix, cut_none_of_absent sep r h]

/-! ### The loop of `Receive` -/

theorem receiveLoop_cons_sep (recv : List ReceivedData) (r : Str) (raw : List Str)
    (h : r ≠ [] → sep <:+: r) :
    receiveLoop recv (r :: raw) = receiveLoop (recv ++ (recordEvent r).toList) raw := by
  by_cases hr : r = []
  · subst hr
    simp [receiveLoop, recordEvent]
  · have h0 := split_zero r
    have h1 := split_one_of_present r (h hr)
    rw [receiveLoop, if_neg hr]
    simp only [h0, h1]
    by_cases ht : typePrefix r = []
    · simp [ht, recordEvent]
    · by_cases hp : payloadOf r = [] ∨ payloadOf r = comma
      · rw [if_neg ht, if_pos hp]
        have : recordEvent r = none := by
          unfold recordEvent
          rw [if_pos (Or.inr (Or.inr hp))]
        simp [this]
      · rw [if_neg ht, if_neg hp]
        have : recordEvent r = some { Typ := typePrefix r, Data := payloadOf r } := by
          unfold recordEvent
          rw [if_neg]
          rintro (h | h | h)
          · exact hr h
          · exact ht h
          · exact hp h
        simp [this]

theorem receiveLoop_cons_no_sep (recv : List ReceivedData) (r : Str) (raw : List Str)
    (hr : r ≠ []) (h : ¬ sep <:+: r) :
    receiveLoop recv (r :: raw) = .error .indexOutOfRange := by
  rw [receiveLoop, if_neg hr]
  simp only [split_zero r, split_one_of_absent r h, typePrefix_of_absent r h, if_neg hr]

theorem receiveLoop_all_sep : ∀ (raw : List Str) (recv : List ReceivedData),
    (∀ r ∈ raw, r ≠ [] → sep <:+: r) →
    receiveLoop recv raw = .ok (recv ++ raw.filterMap recordEvent)
  | [], recv, _ => by simp [receiveLoop]
  | r :: raw, recv, h => by
    rw [receiveLoop_cons_sep recv r raw (h r (List.mem_cons_self r raw)),
      receiveLoop_all_sep raw _ (fun x hx => h x (List.mem_cons_of_mem r hx))]
    cases hre : recordEvent r <;> simp [List.filterMap_cons, hre]

theorem receiveLoop_error_iff : ∀ (raw : List Str) (recv : List ReceivedData),
    receiveLoop recv raw = .error .indexOutOfRange ↔ ∃ r ∈ raw, r ≠ [] ∧ ¬ sep <:+: r
  | [], recv => by simp [receiveLoop]
  | r :: raw, recv => by
    by_cases h : r ≠ [] ∧ ¬ sep <:+: r
    · rw [receiveLoop_cons_no_sep recv r raw h.1 h.2]
      simp only [true_iff]
      exact ⟨r, List.mem_cons_self r raw, h⟩
    · have h2 : r ≠ [] → sep <:+: r := fun hr => by
        by_contra hc
        exact h ⟨hr, hc⟩
      rw [receiveLoop_cons_sep recv r raw h2, receiveLoop_error_iff raw]
      constructor
      · rintro ⟨x, hx, hx2⟩
        exact ⟨x, List.mem_cons_of_mem r hx, hx2⟩
      · rintro ⟨x, hx, hx2⟩
        rcases List.mem_cons.mp hx with rfl | hx
        · exact absurd hx2 h
        · exact ⟨x, hx, hx2⟩


theorem singleton_infix_iff (c : Char) (s : Str) : [c] <:+: s ↔ c ∈ s := by
  constructor
  · rintro ⟨p, q, rfl⟩
    simp
  · intro hm
    obtain ⟨p, q, rfl⟩ := List.append_of_mem hm
    exact ⟨p, q, by simp⟩

theorem newline_infix_iff (s : Str) : newline <:+: s ↔ '\n' ∈ s :=
  singleton_infix_iff '\n' s

theorem not_newline_infix_record (t p : Str) (h1 : ¬ newline <:+: t) (h2 : ¬ newline <:+: p) :
    ¬ newline <:+: t ++ (sep ++ p) := by
  rw [newline_infix_iff] at *
  simp [sep, h1, h2]

/-- One well-framed record inside the loop of `Receive`: it appends its event
and the loop goes on. -/
theorem receiveLoop_cons_framed (recv : List ReceivedData) (t p : Str) (raw : List Str)
    (ht : t ≠ []) (hp : p ≠ []) (hc : p ≠ comma)
    (h1 : ¬ sep <:+: t) (h2 : ¬ ">".toList <:+ t) (h3 : ¬ sep <:+: p) :
    receiveLoop recv ((t ++ (sep ++ p)) :: raw)
      = receiveLoop (recv ++ [{ Typ := t, Data := p }]) raw := by
  have hne : t ++ (sep ++ p) ≠ [] := by simp [ht]
  rw [receiveLoop, if_neg hne, split_record t p h1 h2 h3]
  simp [ht, hp, hc]

theorem receiveLoop_framed : ∀ (recs : List (Str × Str)) (recv : List ReceivedData),
    (∀ r ∈ recs, r.1 ≠ [] ∧ r.2 ≠ [] ∧ ¬ newline <:+: r.1 ∧ ¬ newline <:+: r.2 ∧
      ¬ sep <:+: r.1 ∧ ¬ sep <:+: r.2 ∧ r.2 ≠ comma ∧ ¬ ">".toList <:+ r.1) →
    receiveLoop recv (Split (recs.map (fun r => r.1 ++ sep ++ r.2 ++ newline)).flatten newline)
      = .ok (recv ++ recs.map (fun r => { Typ := r.1, Data := r.2 }))
  | [], recv, _ => by
    have : Split [] newline = [[]] := by decide
    simp [this, receiveLoop]
  | (t, p) :: recs, recv, h => by
    obtain ⟨ht, hp, hn1, hn2, hs1, hs2, hc, hg⟩ := h (t, p) (List.mem_cons_self _ _)
    have ih := receiveLoop_framed recs (recv ++ [{ Typ := t, Data := p }])
      (fun r hr => h r (List.mem_cons_of_mem _ hr))
    rw [List.map_cons, List.flatten_cons]
    have e : ∀ x : Str, t ++ sep ++ p ++ newline ++ x = (t ++ (sep ++ p)) ++ (newline ++ x) := by
      intro x
      simp
    rw [e, split_line _ _ (not_newline_infix_record t p hn1 hn2),
      receiveLoop_cons_framed recv t p _ ht hp hc hs1 hg hs2, ih]
    simp

/-- C1 (as amended): a chunk made of `k` records `type>>payload\n`, every type
and payload non-empty and free of newline and `>>`, no payload a bare comma and
no type ending in `>`, parses without error into exactly the `k` events
`(type_i, payload_i)`, in arrival order. -/
theorem receive_framing (recs : List (Str × Str))
    (h : ∀ r ∈ recs, r.1 ≠ [] ∧ r.2 ≠ [] ∧ ¬ newline <:+: r.1 ∧ ¬ newline <:+: r.2 ∧
      ¬ sep <:+: r.1 ∧ ¬ sep <:+: r.2 ∧ r.2 ≠ comma ∧ ¬ ">".toList <:+ r.1) :
    parseChunk (recs.map (fun r => r.1 ++ sep ++ r.2 ++ newline)).flatten
      = .ok (recs.map (fun r => { Typ := r.1, Data := r.2 })) := by
  have := receiveLoop_framed recs [] h
  simpa [parseChunk] using this

/-- The framing theorem on the chunk of the records `workspace>>1` and
`activewindow>>cls,title`. -/
theorem receive_framing_witness :
    (∀ r ∈ [("workspace".toList, "1".toList), ("activewindow".toList, "cls,title".toList)],
      r.1 ≠ [] ∧ r.2 ≠ [] ∧ ¬ newline <:+: r.1 ∧ ¬ newline <:+: r.2 ∧
      ¬ sep <:+: r.1 ∧ ¬ sep <:+: r.2 ∧ r.2 ≠ comma ∧ ¬ ">".toList <:+ r.1) ∧
    parseChunk ([("workspace".toList, "1".toList),
        ("activewindow".toList, "cls,title".toList)].map
        (fun r => r.1 ++ sep ++ r.2 ++ newline)).flatten
      = .ok ([("workspace".toList, "1".toList),
        ("activewindow".toList, "cls,title".toList)].map
        (fun r => { Typ := r.1, Data := r.2 })) :=
  ⟨by decide, receive_framing _ (by decide)⟩

/-- C1 (as stated) fails: the type `>` and the payload `b` are non-empty and
hold neither a newline nor `>>`, yet the chunk `>>>b\n` parses to no event at
all, because the leftmost `>>` starts inside the type. -/
theorem receive_framing_counterexample :
    (∀ r ∈ [(">".toList, "b".toList)],
      r.1 ≠ [] ∧ r.2 ≠ [] ∧ ¬ newline <:+: r.1 ∧ ¬ newline <:+: r.2 ∧
      ¬ sep <:+: r.1 ∧ ¬ sep <:+: r.2 ∧ r.2 ≠ comma) ∧
    parseChunk ([(">".toList, "b".toList)].map (fun r => r.1 ++ sep ++ r.2 ++ newline)).flatten
      = .ok [] ∧
    parseChunk ([(">".toList, "b".toList)].map (fun r => r.1 ++ sep ++ r.2 ++ newline)).flatten
      ≠ .ok ([(">".toList, "b".toList)].map (fun r => { Typ := r.1, Data := r.2 })) := by
  decide

/-- C2 (fails on the code): a non-empty record without `>>` is not discarded.
`split` then has one element, its first is the non-empty record, and
evaluating `split[1]` panics: record parsing ends in an index-out-of-range
panic exactly when some record of the chunk is non-empty and holds no `>>`;
for instance on a chunk that ends in the partial record `activewin`. -/
theorem receive_missing_separator_panics :
    (∀ chunk : Str, parseChunk chunk = .error .indexOutOfRange ↔
      ∃ r ∈ Split chunk newline, r ≠ [] ∧ ¬ sep <:+: r) ∧
    parseChunk "workspace>>1\nactivewin".toList = .error .indexOutOfRange :=
  ⟨fun chunk => receiveLoop_error_iff (Split chunk newline) [], by decide⟩

/-- C3: on a chunk whose non-empty records all hold the separator, record
parsing raises no error and returns, in order, one event per kept record; a
record is dropped exactly when it is empty, its type prefix is empty, its
payload is empty, or its payload is a bare comma, and what one record yields
does not depend on the other records. -/
theorem receive_discard_rules (chunk : Str)
    (h : ∀ r ∈ Split chunk newline, r ≠ [] → sep <:+: r) :
    parseChunk chunk = .ok ((Split chunk newline).filterMap recordEvent) ∧
    ∀ r : Str, (recordEvent r = none ↔
        (r = [] ∨ typePrefix r = [] ∨ payloadOf r = [] ∨ payloadOf r = comma)) ∧
      (recordEvent r ≠ none →
        recordEvent r = some { Typ := typePrefix r, Data := payloadOf r }) := by
  refine ⟨?_, fun r => ⟨?_, ?_⟩⟩
  · have := receiveLoop_all_sep (Split chunk newline) [] h
    simpa [parseChunk] using this
  · unfold recordEvent
    split_ifs with hd
    · simp [hd]
    · simp [hd]
  · unfold recordEvent
    split_ifs with hd
    · simp
    · simp

/-- The discard rules on a chunk that holds a kept record, an empty type, an
empty payload, a bare comma, an empty record and a record with two separators. -/
theorem receive_discard_rules_witness :
    (∀ r ∈ Split "workspace>>1\n>>x\na>>\nb>>,\n\nc>>d>>e\n".toList newline,
      r ≠ [] → sep <:+: r) ∧
    (parseChunk "workspace>>1\n>>x\na>>\nb>>,\n\nc>>d>>e\n".toList
        = .ok ((Split "workspace>>1\n>>x\na>>\nb>>,\n\nc>>d>>e\n".toList newline).filterMap
            recordEvent) ∧
      ∀ r : Str, (recordEvent r = none ↔
          (r = [] ∨ typePrefix r = [] ∨ payloadOf r = [] ∨ payloadOf r = comma)) ∧
        (recordEvent r ≠ none →
          recordEvent r = some { Typ := typePrefix r, Data := payloadOf r })) :=
  ⟨by decide, receive_discard_rules _ (by decide)⟩

/-- C9 (as amended): a record `type>>payload` whose type is non-empty, holds
neither `>>` nor a newline and does not end in `>`, and whose payload is
non-empty, is not a bare comma and holds neither a newline nor `>>`, yields
exactly one event, with that type and the whole payload: inside any chunk the
loop appends it and goes on, and alone in a chunk it is the result. -/
theorem receive_record_payload (t p : Str) (recv : List ReceivedData) (raw : List Str)
    (ht : t ≠ []) (ht1 : ¬ sep <:+: t) (ht2 : ¬ newline <:+: t) (ht3 : ¬ ">".toList <:+ t)
    (hp : p ≠ []) (hp1 : p ≠ comma) (hp2 : ¬ newline <:+: p) (hp3 : ¬ sep <:+: p) :
    receiveLoop recv ((t ++ sep ++ p) :: raw)
        = receiveLoop (recv ++ [{ Typ := t, Data := p }]) raw ∧
      parseChunk (t ++ sep ++ p ++ newline) = .ok [{ Typ := t, Data := p }] := by
  constructor
  · rw [List.append_assoc]
    exact receiveLoop_cons_framed recv t p raw ht hp hp1 ht1 ht3 hp3
  · have h := receiveLoop_framed [(t, p)] [] (by
      intro r hr
      rw [List.mem_singleton] at hr
      subst hr
      exact ⟨ht, hp, ht2, hp2, ht1, hp3, hp1, ht3⟩)
    simpa [parseChunk] using h

/-- The payload theorem on `activewindow>>kitty,~ > zsh`, whose payload holds a
single `>`. -/
theorem receive_record_payload_witness :
    ("activewindow".toList ≠ [] ∧ ¬ sep <:+: "activewindow".toList ∧
      ¬ newline <:+: "activewindow".toList ∧ ¬ ">".toList <:+ "activewindow".toList ∧
      "kitty,~ > zsh".toList ≠ [] ∧ "kitty,~ > zsh".toList ≠ comma ∧
      ¬ newline <:+: "kitty,~ > zsh".toList ∧ ¬ sep <:+: "kitty,~ > zsh".toList) ∧
    (receiveLoop [] (("activewindow".toList ++ sep ++ "kitty,~ > zsh".toList) :: [[]])
        = receiveLoop ([] ++ [{ Typ := "activewindow".toList, Data := "kitty,~ > zsh".toList }])
            [[]] ∧
      parseChunk ("activewindow".toList ++ sep ++ "kitty,~ > zsh".toList ++ newline)
        = .ok [{ Typ := "activewindow".toList, Data := "kitty,~ > zsh".toList }]) :=
  ⟨by decide,
    receive_record_payload _ _ [] [[]] (by decide) (by decide) (by decide) (by decide)
      (by decide) (by decide) (by decide) (by decide)⟩

/-- C9 (as stated) fails twice. The payload `kitty,a >> b` holds `>>`: the
record parses to an event whose data is cut at that `>>`, not the whole
payload. And the type `a>` ends in `>`: the record `a>>>b` parses to type `a`
and data `>b`. Both inputs meet every condition of the claim. -/
theorem receive_record_payload_counterexample :
    ("activewindow".toList ≠ [] ∧ ¬ sep <:+: "activewindow".toList ∧
      ¬ newline <:+: "activewindow".toList ∧
      "kitty,a >> b".toList ≠ [] ∧ "kitty,a >> b".toList ≠ comma ∧
      ¬ newline <:+: "kitty,a >> b".toList) ∧
    parseChunk ("activewindow".toList ++ sep ++ "kitty,a >> b".toList ++ newline)
      = .ok [{ Typ := "activewindow".toList, Data := "kitty,a ".toList }] ∧
    parseChunk ("activewindow".toList ++ sep ++ "kitty,a >> b".toList ++ newline)
      ≠ .ok [{ Typ := "activewindow".toList, Data := "kitty,a >> b".toList }] ∧
    ("a>".toList ≠ [] ∧ ¬ sep <:+: "a>".toList ∧ ¬ newline <:+: "a>".toList ∧
      "b".toList ≠ [] ∧ "b".toList ≠ comma ∧ ¬ newline <:+: "b".toList) ∧
    parseChunk ("a>".toList ++ sep ++ "b".toList ++ newline)
      = .ok [{ Typ := "a".toList, Data := ">b".toList }] ∧
    parseChunk ("a>".toList ++ sep ++ "b".toList ++ newline)
      ≠ .ok [{ Typ := "a>".toList, Data := "b".toList }] := by
  decide

/-! ## `processEvent` -/

theorem index_of_lt (raw : List Str) (i : Nat) (h : i < raw.length) :
    index raw i = .ok (field raw i) := by
  simp [index, field, List.getElem?_eq_getElem h, List.getD_eq_getElem?_getD]

theorem index_of_le (raw : List Str) (i : Nat) (h : raw.length ≤ i) :
    index raw i = .error .indexOutOfRange := by
  simp [index, List.getElem?_eq_none h]

/-- The loop skips every subscribed type that differs from the type of the
message. -/
theorem processLoop_not_mem (evs : EventTypes) (msg : ReceivedData) :
    ∀ (events : List Str) (calls : List HandlerCall), msg.Typ ∉ events →
      processLoop evs msg calls events = { calls := calls, panic := none }
  | [], calls, _ => by simp [processLoop]
  | e :: events, calls, h => by
    have h1 : msg.Typ ≠ e := fun he => h (he ▸ List.mem_cons_self _ _)
    have h2 : msg.Typ ∉ events := fun hm => h (List.mem_cons_of_mem _ hm)
    rw [processLoop, if_neg h1]
    exact processLoop_not_mem evs msg events calls h2

/-- When the switch yields a call for the type of the message, the loop makes
that call once per occurrence of the type in the subscription list. -/
theorem processLoop_some (evs : EventTypes) (msg : ReceivedData) (call : HandlerCall)
    (h : processEventSwitch evs msg.Typ (Split msg.Data comma) = .ok (some call)) :
    ∀ (events : List Str) (calls : List HandlerCall),
      processLoop evs msg calls events
        = { calls := calls ++ List.replicate (events.count msg.Typ) call, panic := none }
  | [], calls => by simp [processLoop]
  | e :: events, calls => by
    by_cases he : msg.Typ = e
    · subst he
      rw [processLoop, if_pos rfl]
      simp only [h]
      rw [processLoop_some evs msg call h events]
      simp [List.replicate_succ]
    · rw [processLoop, if_neg he, processLoop_some evs msg call h events]
      have : e ≠ msg.Typ := fun h => he h.symm
      simp [List.count_cons, this]

/-- With pairwise distinct constants and enough fields, the switch takes the
`case` of the event type and makes the call of the decoding table. -/
theorem processEventSwitch_name (evs : EventTypes) (hd : evs.Distinct) (k : EventKind)
    (raw : List Str) (hf : requiredFields k ≤ raw.length) :
    processEventSwitch evs (evs.name k) raw = .ok (some (decodeTable k raw)) := by
  simp only [EventTypes.Distinct, EventTypes.all, List.nodup_cons, List.mem_cons,
    List.mem_singleton, not_or, List.not_mem_nil, not_false_eq_true, List.nodup_nil,
    and_true] at hd
  have h1 : 1 ≤ requiredFields k := by cases k <;> decide
  have i0 : index raw 0 = .ok (field raw 0) := index_of_lt raw 0 (by omega)
  have i1 : 2 ≤ requiredFields k → index raw 1 = .ok (field raw 1) :=
    fun h => index_of_lt raw 1 (by omega)
  have i2 : 4 ≤ requiredFields k → index raw 2 = .ok (field raw 2) :=
    fun h => index_of_lt raw 2 (by omega)
  have i3 : 4 ≤ requiredFields k → index raw 3 = .ok (field raw 3) :=
    fun h => index_of_lt raw 3 (by omega)
  cases k <;>
    simp [processEventSwitch, EventTypes.name, decodeTable, hd, eq_comm, i0, i1, i2, i3,
      requiredFields, bind, Except.bind, pure, Except.pure]

/-- With pairwise distinct constants and enough fields, `processEvent` makes the
call of the decoding table once per occurrence of the event type in the
subscription list, and does not panic. -/
theorem processEvent_name (evs : EventTypes) (hd : evs.Distinct) (k : EventKind)
    (data : Str) (events : List Str) (hf : requiredFields k ≤ (Split data comma).length) :
    processEvent evs { Typ := evs.name k, Data := data } events
      = { calls := List.replicate (events.count (evs.name k)) (decodeTable k (Split data comma)),
          panic := none } := by
  have hsw := processEventSwitch_name evs hd k (Split data comma) hf
  have := processLoop_some evs { Typ := evs.name k, Data := data } _ hsw events []
  rw [processEvent, this]
  simp

/-- C4: when the type of the event does not occur in the subscription list,
`processEvent` makes no handler call and does not panic, whatever the type and
the payload are (also a payload with too few fields). -/
theorem processEvent_filter (evs : EventTypes) (msg : ReceivedData) (events : List Str)
    (h : msg.Typ ∉ events) :
    processEvent evs msg events = { calls := [], panic := none } :=
  processLoop_not_mem evs msg events [] h

/-- The filtering theorem on a window-opened event with too few fields and a
subscription to two other types. -/
theorem processEvent_filter_witness :
    ("openwindow".toList ∉ ["workspace".toList, "activewindow".toList]) ∧
    processEvent hyprlandEventTypes { Typ := "openwindow".toList, Data := "80e62df0".toList }
        ["workspace".toList, "activewindow".toList]
      = { calls := [], panic := none } :=
  ⟨by decide, processEvent_filter hyprlandEventTypes
    { Typ := "openwindow".toList, Data := "80e62df0".toList } _ (by decide)⟩

/-- C5: for each of the 17 event types, a payload with at least the fields the
type requires, and a subscription list that holds the type exactly once,
`processEvent` makes exactly one handler call and no panic: the call of the
decoding table for that type, its arguments taken by position from the payload
split on `","`. -/
theorem processEvent_decoding_table (evs : EventTypes) (hd : evs.Distinct) (k : EventKind)
    (data : Str) (events : List Str) (hS : events.count (evs.name k) = 1)
    (hf : requiredFields k ≤ (Split data comma).length) :
    processEvent evs { Typ := evs.name k, Data := data } events
      = { calls := [decodeTable k (Split data comma)], panic := none } := by
  have hsw := processEventSwitch_name evs hd k (Split data comma) hf
  have := processLoop_some evs { Typ := evs.name k, Data := data } _ hsw events []
  rw [processEvent, this]
  simp [hS]

/-- The decoding table on the window-opened event of `event_test.go`, subscribed
to all 17 types. -/
theorem processEvent_decoding_table_witness :
    (hyprlandEventTypes.Distinct ∧
      hyprlandEventTypes.all.count (hyprlandEventTypes.name .openWindow) = 1 ∧
      requiredFields .openWindow
        ≤ (Split "80e62df0,2,jetbrains-goland,win430".toList comma).length) ∧
    processEvent hyprlandEventTypes
        { Typ := hyprlandEventTypes.name .openWindow,
          Data := "80e62df0,2,jetbrains-goland,win430".toList }
        hyprlandEventTypes.all
      = { calls := [decodeTable .openWindow
            (Split "80e62df0,2,jetbrains-goland,win430".toList comma)],
          panic := none } :=
  ⟨by decide, processEvent_decoding_table hyprlandEventTypes (by decide) .openWindow _ _
    (by decide) (by decide)⟩

/-- A payload `a,b` whose two parts hold no comma splits into exactly those
parts. -/
theorem split_comma_pair (a b : Str) (ha : ¬ comma <:+: a) (hb : ¬ comma <:+: b) :
    Split (a ++ (comma ++ b)) comma = [a, b] := by
  have e : Cut comma (a ++ (comma ++ b)) = some (a, b) := cut_singleton _ a b ha
  rw [split_of_cut_some comma _ a b comma_ne_nil e,
    split_of_cut_none comma b comma_ne_nil (cut_none_of_absent comma b hb)]

/-- What does hold of the title: an active-window payload `class,title` with
no comma in the class and none in the title is delivered as
`ActiveWindow{Name: class, Title: title}`. -/
theorem processEvent_title_comma_free (evs : EventTypes) (hd : evs.Distinct) (cls title : Str)
    (events : List Str) (hS : events.count evs.EventActiveWindow = 1)
    (hc : ¬ comma <:+: cls) (ht : ¬ comma <:+: title) :
    processEvent evs { Typ := evs.EventActiveWindow, Data := cls ++ comma ++ title } events
      = { calls := [.ActiveWindow cls title], panic := none } := by
  have hsplit : Split (cls ++ comma ++ title) comma = [cls, title] := by
    rw [List.append_assoc]
    exact split_comma_pair cls title hc ht
  have h := processEvent_name evs hd .activeWindow (cls ++ comma ++ title) events
    (by rw [hsplit]; simp [requiredFields])
  rw [hsplit] at h
  exact h.trans (by simp [EventTypes.name, hS, decodeTable, field])

/-- C10 (fails on the code): the title does not survive a comma. Whatever the
distinct constants are, the active-window payload `kitty,hello, world` is
delivered with `Title = "hello"` and the window-opened payload
`80864f60,1,kitty,hello, world` likewise: the payload is split at every comma
and only the field right after the class is passed on. -/
theorem processEvent_title_cut (evs : EventTypes) (hd : evs.Distinct) :
    processEvent evs { Typ := evs.EventActiveWindow, Data := "kitty,hello, world".toList }
        [evs.EventActiveWindow]
      = { calls := [.ActiveWindow "kitty".toList "hello".toList], panic := none } ∧
    processEvent evs
        { Typ := evs.EventOpenWindow, Data := "80864f60,1,kitty,hello, world".toList }
        [evs.EventOpenWindow]
      = { calls := [.OpenWindow "80864f60".toList "1".toList "kitty".toList "hello".toList],
          panic := none } := by
  constructor
  · have h := processEvent_name evs hd .activeWindow "kitty,hello, world".toList
      [evs.EventActiveWindow] (by decide)
    have hc : [evs.EventActiveWindow].count (evs.name .activeWindow) = 1 := by
      simp [EventTypes.name]
    rw [hc] at h
    exact h.trans (by decide)
  · have h := processEvent_name evs hd .openWindow
      "80864f60,1,kitty,hello, world".toList [evs.EventOpenWindow] (by decide)
    have hc : [evs.EventOpenWindow].count (evs.name .openWindow) = 1 := by
      simp [EventTypes.name]
    rw [hc] at h
    exact h.trans (by decide)

/-- The cut title with the names Hyprland's event socket uses. -/
theorem processEvent_title_cut_witness :
    hyprlandEventTypes.Distinct ∧
    (processEvent hyprlandEventTypes
        { Typ := hyprlandEventTypes.EventActiveWindow, Data := "kitty,hello, world".toList }
        [hyprlandEventTypes.EventActiveWindow]
      = { calls := [.ActiveWindow "kitty".toList "hello".toList], panic := none } ∧
    processEvent hyprlandEventTypes
        { Typ := hyprlandEventTypes.EventOpenWindow,
          Data := "80864f60,1,kitty,hello, world".toList }
        [hyprlandEventTypes.EventOpenWindow]
      = { calls := [.OpenWindow "80864f60".toList "1".toList "kitty".toList "hello".toList],
          panic := none }) :=
  ⟨by decide, processEvent_title_cut hyprlandEventTypes (by decide)⟩

/-! ## `prepareRequests` and `validateResponse` -/

/-- Group `i` of the partition: the parameters from position `30 * i` on, at
most 30 of them; there are `⌈n / 30⌉` groups. -/
theorem batchLoop_getElem? : ∀ (n : Nat) (ps : List Str) (i : Nat), ps.length ≤ n →
    (batchLoop n ps)[i]? =
      if i < (ps.length + 29) / 30 then some ((ps.drop (30 * i)).take 30) else none
  | 0, ps, i, h => by
    have hps : ps = [] := List.length_eq_zero.mp (by omega)
    subst hps
    simp [batchLoop]
  | n + 1, [], i, _ => by simp [batchLoop]
  | n + 1, p :: ps, i, h => by
    have hlen : ((p :: ps).drop batchSize).length ≤ n := by
      simp only [List.length_drop, List.length_cons, batchSize] at h ⊢
      omega
    cases i with
    | zero =>
      have : 0 < (ps.length + 1 + 29) / 30 := by omega
      simp [batchLoop, batchSize, this]
    | succ j =>
      have ih := batchLoop_getElem? n ((p :: ps).drop batchSize) j hlen
      simp only [batchLoop, List.getElem?_cons_succ, ih]
      have hiff : j < (((p :: ps).drop batchSize).length + 29) / 30
          ↔ j + 1 < ((p :: ps).length + 29) / 30 := by
        simp only [List.length_drop, List.length_cons, batchSize]
        omega
      have hd : ((p :: ps).drop batchSize).drop (30 * j) = (p :: ps).drop (30 * (j + 1)) := by
        rw [List.drop_drop, batchSize]
        congr 1
        omega
      by_cases hj : j + 1 < ((p :: ps).length + 29) / 30
      · rw [if_pos (hiff.mpr hj), if_pos hj, hd]
      · rw [if_neg (fun h => hj (hiff.mp h)), if_neg hj]

theorem batchLoop_eq_range (ps : List Str) :
    batchLoop ps.length ps
      = (List.range ((ps.length + 29) / 30)).map (fun i => (ps.drop (30 * i)).take 30) := by
  apply List.ext_getElem?
  intro i
  rw [batchLoop_getElem? ps.length ps i (Nat.le_refl _)]
  by_cases hi : i < (ps.length + 29) / 30
  · simp [hi, List.getElem?_range hi]
  · rw [if_neg hi, eq_comm, List.getElem?_eq_none_iff]
    simp only [List.length_map, List.length_range]
    omega

/-- The groups, put back together, are the parameter list. -/
theorem batchLoop_flatten : ∀ (n : Nat) (ps : List Str), ps.length ≤ n →
    (batchLoop n ps).flatten = ps
  | 0, ps, h => by
    have hps : ps = [] := List.length_eq_zero.mp (by omega)
    subst hps
    simp [batchLoop]
  | n + 1, [], _ => by simp [batchLoop]
  | n + 1, p :: ps, h => by
    have hlen : ((p :: ps).drop batchSize).length ≤ n := by
      simp only [List.length_drop, List.length_cons, batchSize] at h ⊢
      omega
    rw [batchLoop, List.flatten_cons, batchLoop_flatten n _ hlen, List.take_append_drop]

/-- C6: `prepareRequests` returns exactly one frame for no or one parameter
and `⌈n / 30⌉` frames for `n ≥ 2` parameters; 5, 15 and 30 parameters give one
frame, 60 give two, 90 three and 100 four. -/
theorem prepareRequests_count :
    (∀ (command : Str) (params : List Str),
      (prepareRequests command params).length
        = if params.length ≤ 1 then 1 else (params.length + 29) / 30) ∧
    (prepareRequests "command".toList (List.replicate 5 "param".toList)).length = 1 ∧
    (prepareRequests "command".toList (List.replicate 15 "param".toList)).length = 1 ∧
    (prepareRequests "command".toList (List.replicate 30 "param".toList)).length = 1 ∧
    (prepareRequests "command".toList (List.replicate 60 "param".toList)).length = 2 ∧
    (prepareRequests "command".toList (List.replicate 90 "param".toList)).length = 3 ∧
    (prepareRequests "command".toList (List.replicate 100 "param".toList)).length = 4 := by
  have key : ∀ (command : Str) (params : List Str),
      (prepareRequests command params).length
        = if params.length ≤ 1 then 1 else (params.length + 29) / 30 := by
    intro command params
    match params with
    | [] => simp [prepareRequests]
    | [p] => simp [prepareRequests]
    | p :: q :: rest =>
      simp only [prepareRequests, List.length_map]
      rw [batchLoop_eq_range]
      simp
  refine ⟨key, ?_, ?_, ?_, ?_, ?_, ?_⟩ <;> rw [key] <;> simp

/-- C7: `prepareRequests` yields the command alone for no parameter,
`command param` for one, and for two or more the frames of the consecutive
groups of 30 (group `i` holds the parameters from position `30 * i` on, the
last group the remainder), each frame the batch marker followed by
`command param;` for every parameter of its group. The groups have
`min 30 remaining` parameters each, none is empty, and put back together they
are the parameter list. -/
theorem prepareRequests_frames (command : Str) :
    prepareRequests command [] = [command] ∧
    (∀ p : Str, prepareRequests command [p] = [command ++ " ".toList ++ p]) ∧
    (∀ (p q : Str) (rest : List Str),
      prepareRequests command (p :: q :: rest)
        = (List.range (((p :: q :: rest).length + 29) / 30)).map (fun i =>
            "[[BATCH]]".toList ++
              ((((p :: q :: rest).drop (30 * i)).take 30).map
                (fun x => command ++ " ".toList ++ x ++ ";".toList)).flatten)) ∧
    (∀ params : List Str,
      ((List.range ((params.length + 29) / 30)).map
          (fun i => (params.drop (30 * i)).take 30)).flatten = params ∧
      ∀ i, i < (params.length + 29) / 30 →
        ((params.drop (30 * i)).take 30).length = min 30 (params.length - 30 * i) ∧
        0 < ((params.drop (30 * i)).take 30).length) := by
  refine ⟨rfl, fun p => rfl, fun p q rest => ?_, fun params => ⟨?_, fun i hi => ?_⟩⟩
  · simp only [prepareRequests]
    rw [batchLoop_eq_range, List.map_map]
    rfl
  · rw [← batchLoop_eq_range]
    exact batchLoop_flatten _ _ (Nat.le_refl _)
  · simp only [List.length_take, List.length_drop]
    constructor
    · trivial
    · have : 0 < params.length - 30 * i := by omega
      omega

/-- The cases of `TestPrepareRequests` in `request_test.go`. -/
theorem prepareRequests_tests :
    prepareRequests "command".toList [] = ["command".toList] ∧
    prepareRequests "command".toList ["param0".toList] = ["command param0".toList] ∧
    prepareRequests "command".toList ["param0".toList, "param1".toList]
      = ["[[BATCH]]command param0;command param1;".toList] := by
  decide

/-- C8: `validateResponse` fails exactly when validation is enabled and the
trimmed response holds strictly fewer `ok` markers than there are parameters.
So it succeeds whenever validation is off, and it succeeds on more markers
than parameters, as for one parameter against `ok ok`. -/
theorem validateResponse_lower_bound (validate : Bool) (params : List Str) (response : Str) :
    (validateResponse validate params response = .error .commandRejected ↔
      validate = true ∧ Count (TrimSpace response) "ok".toList < params.length) ∧
    (validateResponse validate params response ≠ .error .commandRejected →
      validateResponse validate params response = .ok ()) ∧
    validateResponse false params response = .ok () ∧
    validateResponse true ["param".toList] "ok ok".toList = .ok () := by
  refine ⟨?_, ?_, rfl, by decide⟩
  · unfold validateResponse
    cases validate <;> simp
  · unfold validateResponse
    cases validate <;> simp

/-- The cases of `TestValidateResponse` in `request_test.go`. -/
theorem validateResponse_tests :
    validateResponse true (List.replicate 1 "param".toList) "   ok   ".toList = .ok () ∧
    validateResponse true (List.replicate 2 "param".toList) "ok".toList
      = .error .commandRejected ∧
    validateResponse false (List.replicate 2 "param".toList) "ok".toList = .ok () ∧
    validateResponse true (List.replicate 1 "param".toList) "ok ok".toList = .ok () ∧
    validateResponse true (List.replicate 5 "param".toList) "okokokokok".toList = .ok () ∧
    validateResponse true (List.replicate 6 "param".toList) "okokokokok".toList
      = .error .commandRejected ∧
    validateResponse false (List.replicate 6 "param".toList) "okokokokok".toList = .ok () ∧
    validateResponse true (List.replicate 10 "param".toList)
      " ok  ok  ok  ok  ok  ok  ok  ok  ok  ok ".toList = .ok () := by
  decide

/-! ## `processEvent`: unknown types, short payloads, repeated subscriptions -/

theorem all_eq_map (evs : EventTypes) : evs.all = EventKind.all.map evs.name := rfl

theorem mem_kinds (k : EventKind) : k ∈ EventKind.all := by
  cases k <;> decide

theorem name_mem_all (evs : EventTypes) (k : EventKind) : evs.name k ∈ evs.all := by
  rw [all_eq_map]
  exact List.mem_map_of_mem _ (mem_kinds k)

theorem mem_all_iff (evs : EventTypes) (t : Str) : t ∈ evs.all ↔ ∃ k, t = evs.name k := by
  rw [all_eq_map, List.mem_map]
  constructor
  · rintro ⟨k, _, rfl⟩
    exact ⟨k, rfl⟩
  · rintro ⟨k, rfl⟩
    exact ⟨k, mem_kinds k, rfl⟩

/-- Distinct constants name distinct event types. -/
theorem name_injective (evs : EventTypes) (hd : evs.Distinct) (k1 k2 : EventKind)
    (h : evs.name k1 = evs.name k2) : k1 = k2 := by
  have hn : (EventKind.all.map evs.name).Nodup := hd
  exact List.inj_on_of_nodup_map hn (mem_kinds k1) (mem_kinds k2) h

/-- A payload split on a non-empty separator has at least one field. -/
theorem split_length_pos (s sp : Str) (hne : sp ≠ []) : 1 ≤ (Split s sp).length := by
  unfold Split
  rw [if_neg hne]
  cases hl : s.length with
  | zero => simp [splitLoop]
  | succ n =>
    cases hc : Cut sp s with
    | none => simp [splitLoop, hc]
    | some ba => simp [splitLoop, hc]

/-- No `case` of the switch matches a type outside the 17 constants. -/
theorem processEventSwitch_unknown (evs : EventTypes) (t : Str) (raw : List Str)
    (h : t ∉ evs.all) : processEventSwitch evs t raw = .ok none := by
  simp only [EventTypes.all, List.mem_cons, List.mem_singleton, not_or, List.not_mem_nil,
    or_false] at h
  simp [processEventSwitch, h, pure, Except.pure]

/-- With too few fields the switch panics on the first missing index, before
the handler is called. -/
theorem processEventSwitch_short (evs : EventTypes) (hd : evs.Distinct) (k : EventKind)
    (raw : List Str) (h1 : 1 ≤ raw.length) (hlt : raw.length < requiredFields k) :
    processEventSwitch evs (evs.name k) raw = .error .indexOutOfRange := by
  simp only [EventTypes.Distinct, EventTypes.all, List.nodup_cons, List.mem_cons,
    List.mem_singleton, not_or, List.not_mem_nil, not_false_eq_true, List.nodup_nil,
    and_true] at hd
  have i0 : index raw 0 = .ok (field raw 0) := index_of_lt raw 0 (by omega)
  have i3 : requiredFields k ≤ 4 → index raw 3 = .error .indexOutOfRange :=
    fun h => index_of_le raw 3 (by omega)
  have i1 : requiredFields k ≤ 2 → index raw 1 = .error .indexOutOfRange :=
    fun h => index_of_le raw 1 (by omega)
  rcases Nat.lt_or_ge 1 raw.length with l1 | l1
  · rcases Nat.lt_or_ge 2 raw.length with l2 | l2
    · have j1 := index_of_lt raw 1 l1
      have j2 := index_of_lt raw 2 l2
      cases k <;> simp only [requiredFields] at hlt <;> first
        | omega
        | simp [processEventSwitch, EventTypes.name, hd, eq_comm, i0, i3, j1, j2,
            requiredFields, bind, Except.bind, pure, Except.pure]
    · have j1 := index_of_lt raw 1 l1
      have j2 := index_of_le raw 2 l2
      cases k <;> simp only [requiredFields] at hlt <;> first
        | omega
        | simp [processEventSwitch, EventTypes.name, hd, eq_comm, i0, i3, j1, j2,
            requiredFields, bind, Except.bind, pure, Except.pure]
  · have j1 := index_of_le raw 1 l1
    cases k <;> simp only [requiredFields] at hlt <;> first
      | omega
      | simp [processEventSwitch, EventTypes.name, hd, eq_comm, i0, j1,
          requiredFields, bind, Except.bind, pure, Except.pure]

/-- When the switch matches no `case` for the type of the message, the loop
makes no call. -/
theorem processLoop_none (evs : EventTypes) (msg : ReceivedData)
    (h : processEventSwitch evs msg.Typ (Split msg.Data comma) = .ok none) :
    ∀ (events : List Str) (calls : List HandlerCall),
      processLoop evs msg calls events = { calls := calls, panic := none }
  | [], calls => by simp [processLoop]
  | e :: events, calls => by
    by_cases he : msg.Typ = e
    · subst he
      rw [processLoop, if_pos rfl]
      simp only [h]
      exact processLoop_none evs msg h events calls
    · rw [processLoop, if_neg he]
      exact processLoop_none evs msg h events calls

/-- When the switch panics for the type of the message, the loop panics at the
first subscribed type equal to it, having made no call. -/
theorem processLoop_error (evs : EventTypes) (msg : ReceivedData) (err : RuntimeError)
    (h : processEventSwitch evs msg.Typ (Split msg.Data comma) = .error err) :
    ∀ (events : List Str) (calls : List HandlerCall),
      processLoop evs msg calls events
        = { calls := calls, panic := if msg.Typ ∈ events then some err else none }
  | [], calls => by simp [processLoop]
  | e :: events, calls => by
    by_cases he : msg.Typ = e
    · subst he
      rw [processLoop, if_pos rfl]
      simp [h]
    · rw [processLoop, if_neg he, processLoop_error evs msg err h events calls]
      simp [he]

/-- C11: an event whose type is none of the 17 defined event types makes
`processEvent` call no handler and complete without panic, for every payload
and every subscription list, also one that holds the unknown type. -/
theorem processEvent_unknown (evs : EventTypes) (msg : ReceivedData) (events : List Str)
    (h : msg.Typ ∉ evs.all) :
    processEvent evs msg events = { calls := [], panic := none } := by
  have hsw := processEventSwitch_unknown evs msg.Typ (Split msg.Data comma) h
  rw [processEvent]
  exact processLoop_none evs msg hsw events []

/-- The unknown type `configreloaded`, subscribed to, with any payload. -/
theorem processEvent_unknown_witness :
    ("configreloaded".toList ∉ hyprlandEventTypes.all) ∧
    processEvent hyprlandEventTypes { Typ := "configreloaded".toList, Data := "a,b".toList }
        ["configreloaded".toList, "workspace".toList]
      = { calls := [], panic := none } :=
  ⟨by decide, processEvent_unknown hyprlandEventTypes
    { Typ := "configreloaded".toList, Data := "a,b".toList } _ (by decide)⟩

/-- C16: with pairwise distinct constants, `processEvent` panics with an index
out of range exactly when the type of the event occurs in the subscription
list, is one of the multi-field types (two fields for focused-monitor,
active-window, workspace-moved, active-layout, window-moved and screencast,
four for window-opened) and the payload split on `","` has fewer fields than
the type needs. In every other case it completes normally, in particular for
every single-field type on any payload; and when it panics it has called no
handler for the event. -/
theorem processEvent_index_safety (evs : EventTypes) (hd : evs.Distinct) (msg : ReceivedData)
    (events : List Str) :
    ((processEvent evs msg events).panic = some .indexOutOfRange ↔
      msg.Typ ∈ events ∧ ∃ k, 2 ≤ requiredFields k ∧ msg.Typ = evs.name k ∧
        (Split msg.Data comma).length < requiredFields k) ∧
    ((processEvent evs msg events).panic ≠ some .indexOutOfRange →
      (processEvent evs msg events).panic = none) ∧
    ((processEvent evs msg events).panic ≠ none → (processEvent evs msg events).calls = []) ∧
    (∀ k, requiredFields k = 1 → msg.Typ = evs.name k →
      (processEvent evs msg events).panic = none) ∧
    EventKind.all.filter (fun k => decide (requiredFields k = 2))
      = [.focusedMonitor, .activeWindow, .moveWorkspace, .activeLayout, .moveWindow,
          .screencast] ∧
    EventKind.all.filter (fun k => decide (requiredFields k = 4)) = [.openWindow] ∧
    EventKind.all.filter (fun k => decide (requiredFields k = 1))
      = [.workspace, .fullscreen, .monitorRemoved, .monitorAdded, .createWorkspace,
          .destroyWorkspace, .closeWindow, .openLayer, .closeLayer, .subMap] := by
  obtain ⟨t, d⟩ := msg
  have hlen := split_length_pos d comma comma_ne_nil
  have key : (processEvent evs { Typ := t, Data := d } events
        = { calls := [], panic := some .indexOutOfRange } ∧
        t ∈ events ∧ ∃ k, 2 ≤ requiredFields k ∧ t = evs.name k ∧
          (Split d comma).length < requiredFields k) ∨
      ((processEvent evs { Typ := t, Data := d } events).panic = none ∧
        ¬ (t ∈ events ∧ ∃ k, 2 ≤ requiredFields k ∧ t = evs.name k ∧
          (Split d comma).length < requiredFields k)) := by
    by_cases hm : t ∈ evs.all
    · obtain ⟨k, rfl⟩ := (mem_all_iff evs t).mp hm
      by_cases hf : requiredFields k ≤ (Split d comma).length
      · right
        refine ⟨by rw [processEvent_name evs hd k d events hf], ?_⟩
        rintro ⟨_, k2, _, hk, hlt⟩
        have := name_injective evs hd k k2 hk
        subst this
        omega
      · have hsw := processEventSwitch_short evs hd k (Split d comma) hlen (by omega)
        have hrun := processLoop_error evs { Typ := evs.name k, Data := d } _ hsw events []
        by_cases hS : evs.name k ∈ events
        · left
          refine ⟨?_, hS, k, by omega, rfl, by omega⟩
          rw [processEvent, hrun]
          simp [hS]
        · right
          refine ⟨?_, fun h => hS h.1⟩
          rw [processEvent, hrun]
          simp [hS]
    · right
      have hsw := processEventSwitch_unknown evs t (Split d comma) hm
      have hrun := processLoop_none evs { Typ := t, Data := d } hsw events []
      refine ⟨by rw [processEvent, hrun], ?_⟩
      rintro ⟨_, k, _, rfl, _⟩
      exact hm (name_mem_all evs k)
  refine ⟨?_, ?_, ?_, ?_, by decide, by decide, by decide⟩
  · rcases key with ⟨hrun, hr⟩ | ⟨hp, hr⟩
    · simp only [hrun, true_iff]
      exact hr
    · simp only [hp]
      constructor
      · intro h
        cases h
      · intro h
        exact absurd h hr
  · rcases key with ⟨hrun, _⟩ | ⟨hp, _⟩
    · intro h
      exact absurd (by rw [hrun]) h
    · intro _
      exact hp
  · rcases key with ⟨hrun, _⟩ | ⟨hp, _⟩
    · intro _
      rw [hrun]
    · intro h
      exact absurd hp h
  · intro k hk1 hk
    rcases key with ⟨_, _, k2, h2, hk2, _⟩ | ⟨hp, _⟩
    · have : k = k2 := name_injective evs hd k k2 (hk.symm.trans hk2)
      subst this
      omega
    · exact hp

/-- C18: the subscription list is a list, not a set. With pairwise distinct
constants, for an event of a defined type whose payload has enough fields,
`processEvent` makes as many handler calls as the type occurs in the
subscription list, all of them the same call with the same arguments, and does
not panic. -/
theorem processEvent_count (evs : EventTypes) (hd : evs.Distinct) (k : EventKind) (data : Str)
    (events : List Str) (hf : requiredFields k ≤ (Split data comma).length) :
    (processEvent evs { Typ := evs.name k, Data := data } events).calls.length
      = events.count (evs.name k) ∧
    (processEvent evs { Typ := evs.name k, Data := data } events).calls
      = List.replicate (events.count (evs.name k)) (decodeTable k (Split data comma)) ∧
    (processEvent evs { Typ := evs.name k, Data := data } events).panic = none := by
  have hsw := processEventSwitch_name evs hd k (Split data comma) hf
  have hrun := processLoop_some evs { Typ := evs.name k, Data := data } _ hsw events []
  rw [processEvent, hrun]
  simp

/-- The workspace type listed twice is dispatched twice. -/
theorem processEvent_count_witness :
    (hyprlandEventTypes.Distinct ∧
      requiredFields .workspace ≤ (Split "1".toList comma).length) ∧
    ((processEvent hyprlandEventTypes
        { Typ := hyprlandEventTypes.name .workspace, Data := "1".toList }
        ["workspace".toList, "activewindow".toList, "workspace".toList]).calls.length
      = ["workspace".toList, "activewindow".toList, "workspace".toList].count
          (hyprlandEventTypes.name .workspace) ∧
    (processEvent hyprlandEventTypes
        { Typ := hyprlandEventTypes.name .workspace, Data := "1".toList }
        ["workspace".toList, "activewindow".toList, "workspace".toList]).calls
      = List.replicate
          (["workspace".toList, "activewindow".toList, "workspace".toList].count
            (hyprlandEventTypes.name .workspace))
          (decodeTable .workspace (Split "1".toList comma)) ∧
    (processEvent hyprlandEventTypes
        { Typ := hyprlandEventTypes.name .workspace, Data := "1".toList }
        ["workspace".toList, "activewindow".toList, "workspace".toList]).panic = none) :=
  ⟨by decide, processEvent_count hyprlandEventTypes (by decide) .workspace _ _ (by decide)⟩

/-- The index-safety theorem with the names Hyprland's event socket uses, on an
active-window event whose payload has a single field. -/
theorem processEvent_index_safety_witness :
    hyprlandEventTypes.Distinct ∧
    (((processEvent hyprlandEventTypes
        { Typ := "activewindow".toList, Data := "kitty".toList }
        ["activewindow".toList]).panic = some .indexOutOfRange ↔
      "activewindow".toList ∈ ["activewindow".toList] ∧ ∃ k, 2 ≤ requiredFields k ∧
        "activewindow".toList = hyprlandEventTypes.name k ∧
        (Split "kitty".toList comma).length < requiredFields k) ∧
    ((processEvent hyprlandEventTypes
        { Typ := "activewindow".toList, Data := "kitty".toList }
        ["activewindow".toList]).panic ≠ some .indexOutOfRange →
      (processEvent hyprlandEventTypes
        { Typ := "activewindow".toList, Data := "kitty".toList }
        ["activewindow".toList]).panic = none) ∧
    ((processEvent hyprlandEventTypes
        { Typ := "activewindow".toList, Data := "kitty".toList }
        ["activewindow".toList]).panic ≠ none →
      (processEvent hyprlandEventTypes
        { Typ := "activewindow".toList, Data := "kitty".toList }
        ["activewindow".toList]).calls = []) ∧
    (∀ k, requiredFields k = 1 → "activewindow".toList = hyprlandEventTypes.name k →
      (processEvent hyprlandEventTypes
        { Typ := "activewindow".toList, Data := "kitty".toList }
        ["activewindow".toList]).panic = none) ∧
    EventKind.all.filter (fun k => decide (requiredFields k = 2))
      = [.focusedMonitor, .activeWindow, .moveWorkspace, .activeLayout, .moveWindow,
          .screencast] ∧
    EventKind.all.filter (fun k => decide (requiredFields k = 4)) = [.openWindow] ∧
    EventKind.all.filter (fun k => decide (requiredFields k = 1))
      = [.workspace, .fullscreen, .monitorRemoved, .monitorAdded, .createWorkspace,
          .destroyWorkspace, .closeWindow, .openLayer, .closeLayer, .subMap]) :=
  ⟨by decide,
    processEvent_index_safety hyprlandEventTypes (by decide)
      { Typ := "activewindow".toList, Data := "kitty".toList } ["activewindow".toList]⟩

/-! ## `Receive`: what the returned events are -/

/-- The text before the leftmost separator holds no separator. -/
theorem cut_before_absent (sp : Str) (hne : sp ≠ []) : ∀ (s b a : Str),
    Cut sp s = some (b, a) → ¬ sp <:+: b
  | [], b, a, h => by simp [Cut] at h
  | c :: cs, b, a, h => by
    rw [cut_cons] at h
    split_ifs at h with hp
    · simp only [Option.some.injEq, Prod.mk.injEq] at h
      obtain ⟨rfl, _⟩ := h
      intro hi
      exact hne (List.infix_nil.mp hi)
    · cases hc : Cut sp cs with
      | none => simp [hc] at h
      | some ba =>
        obtain ⟨b1, a1⟩ := ba
        simp only [hc, Option.some.injEq, Prod.mk.injEq] at h
        obtain ⟨rfl, rfl⟩ := h
        intro hi
        rcases List.infix_cons_iff.mp hi with hpre | hin
        · apply hp
          have hs := cut_sound sp cs b1 a1 hc
          apply List.isPrefixOf_iff_prefix.mpr
          rw [hs]
          exact hpre.trans ⟨sp ++ a1, by simp⟩
        · exact cut_before_absent sp hne cs b1 a1 hc hin

theorem absent_of_cut_none (sp s : Str) (hne : sp ≠ []) (h : Cut sp s = none) :
    ¬ sp <:+: s := by
  intro hi
  obtain ⟨b, a, hba⟩ := cut_isSome_of_present sp s hne hi
  rw [h] at hba
  cases hba

/-- No piece of a split holds the separator. -/
theorem splitLoop_pieces_absent (sp : Str) (hne : sp ≠ []) : ∀ (n : Nat) (s : Str),
    s.length ≤ n → ∀ p ∈ splitLoop sp n s, ¬ sp <:+: p
  | 0, s, h, p, hp => by
    have hs : s = [] := List.length_eq_zero.mp (by omega)
    subst hs
    simp only [splitLoop, List.mem_singleton] at hp
    subst hp
    intro hi
    exact hne (List.infix_nil.mp hi)
  | n + 1, s, h, p, hp => by
    cases hc : Cut sp s with
    | none =>
      simp only [splitLoop, hc, List.mem_singleton] at hp
      subst hp
      exact absent_of_cut_none sp p hne hc
    | some ba =>
      obtain ⟨b, a⟩ := ba
      simp only [splitLoop, hc, List.mem_cons] at hp
      rcases hp with rfl | hp
      · exact cut_before_absent sp hne s p a hc
      · have hs := cut_sound sp s b a hc
        have hsp : 0 < sp.length := List.length_pos.mpr hne
        have hlen : a.length ≤ n := by
          have := congrArg List.length hs
          simp at this
          omega
        exact splitLoop_pieces_absent sp hne n a hlen p hp

theorem split_pieces_absent (s sp : Str) (hne : sp ≠ []) : ∀ p ∈ Split s sp, ¬ sp <:+: p := by
  intro p hp
  unfold Split at hp
  rw [if_neg hne] at hp
  exact splitLoop_pieces_absent sp hne s.length s (Nat.le_refl _) p hp

theorem typePrefix_absent (r : Str) : ¬ sep <:+: typePrefix r := by
  unfold typePrefix
  cases hc : Cut sep r with
  | none => exact absent_of_cut_none sep r sep_ne_nil hc
  | some ba =>
    obtain ⟨b, a⟩ := ba
    exact cut_before_absent sep sep_ne_nil r b a hc

theorem payloadOf_absent (r : Str) : ¬ sep <:+: payloadOf r := by
  unfold payloadOf
  cases hc : Cut sep r with
  | none =>
    intro hi
    exact sep_ne_nil (List.infix_nil.mp hi)
  | some ba =>
    obtain ⟨b, a⟩ := ba
    simp only
    cases hc2 : Cut sep a with
    | none => exact absent_of_cut_none sep a sep_ne_nil hc2
    | some ba2 =>
      obtain ⟨b2, a2⟩ := ba2
      exact cut_before_absent sep sep_ne_nil a b2 a2 hc2

theorem typePrefix_within (r : Str) : typePrefix r <:+: r := by
  unfold typePrefix
  cases hc : Cut sep r with
  | none => exact List.infix_refl _
  | some ba =>
    obtain ⟨b, a⟩ := ba
    have hs := cut_sound sep r b a hc
    exact ⟨[], sep ++ a, by simp [hs]⟩

theorem payloadOf_within (r : Str) : payloadOf r <:+: r := by
  unfold payloadOf
  cases hc : Cut sep r with
  | none => exact ⟨[], r, by simp⟩
  | some ba =>
    obtain ⟨b, a⟩ := ba
    have hs := cut_sound sep r b a hc
    simp only
    cases hc2 : Cut sep a with
    | none => exact ⟨b ++ sep, [], by simp [hs]⟩
    | some ba2 =>
      obtain ⟨b2, a2⟩ := ba2
      have hs2 := cut_sound sep a b2 a2 hc2
      exact ⟨b ++ sep, sep ++ a2, by simp [hs, hs2]⟩

/-- When record parsing returns, it returns what the records yield one by one,
in order. -/
theorem parseChunk_ok (chunk : Str) (events : List ReceivedData)
    (h : parseChunk chunk = .ok events) :
    events = (Split chunk newline).filterMap recordEvent := by
  have hall : ∀ r ∈ Split chunk newline, r ≠ [] → sep <:+: r := by
    intro r hr hne
    by_contra hc
    have herr := (receiveLoop_error_iff (Split chunk newline) []).mpr ⟨r, hr, hne, hc⟩
    rw [parseChunk, herr] at h
    cases h
  have hok := receiveLoop_all_sep (Split chunk newline) [] hall
  rw [parseChunk, hok] at h
  simpa using (Except.ok.inj h).symm

theorem recordEvent_some (r : Str) (e : ReceivedData) (h : recordEvent r = some e) :
    e.Typ = typePrefix r ∧ e.Data = payloadOf r ∧ typePrefix r ≠ [] ∧ payloadOf r ≠ [] ∧
      payloadOf r ≠ comma := by
  unfold recordEvent at h
  split_ifs at h with hd
  simp only [Option.some.injEq] at h
  subst h
  simp only [not_or] at hd
  exact ⟨rfl, rfl, hd.2.1, hd.2.2.1, hd.2.2.2⟩

/-- C13: every event that record parsing returns has a non-empty type and a
non-empty data, its data is not a bare comma, and neither its type nor its data
holds `>>` or a newline; in particular the data is never the separator
itself. -/
theorem receive_invariant (chunk : Str) (events : List ReceivedData)
    (h : parseChunk chunk = .ok events) :
    ∀ e ∈ events, e.Typ ≠ [] ∧ e.Data ≠ [] ∧ e.Data ≠ comma ∧
      ¬ sep <:+: e.Typ ∧ ¬ sep <:+: e.Data ∧
      ¬ newline <:+: e.Typ ∧ ¬ newline <:+: e.Data ∧ e.Data ≠ sep := by
  intro e he
  rw [parseChunk_ok chunk events h, List.mem_filterMap] at he
  obtain ⟨r, hr, hre⟩ := he
  obtain ⟨ht, hd, htn, hdn, hdc⟩ := recordEvent_some r e hre
  have hnl : ¬ newline <:+: r := split_pieces_absent chunk newline newline_ne_nil r hr
  rw [ht, hd]
  refine ⟨htn, hdn, hdc, typePrefix_absent r, payloadOf_absent r, ?_, ?_, ?_⟩
  · exact fun hi => hnl (hi.trans (typePrefix_within r))
  · exact fun hi => hnl (hi.trans (payloadOf_within r))
  · intro heq
    exact payloadOf_absent r (heq ▸ List.infix_refl _)

/-- The invariant on a chunk with kept and dropped records. -/
theorem receive_invariant_witness :
    parseChunk "workspace>>1\n>>x\nactivewindow>>kitty,a >> b\n".toList
      = .ok [{ Typ := "workspace".toList, Data := "1".toList },
          { Typ := "activewindow".toList, Data := "kitty,a ".toList }] ∧
    ∀ e ∈ [({ Typ := "workspace".toList, Data := "1".toList } : ReceivedData),
          { Typ := "activewindow".toList, Data := "kitty,a ".toList }],
      e.Typ ≠ [] ∧ e.Data ≠ [] ∧ e.Data ≠ comma ∧
      ¬ sep <:+: e.Typ ∧ ¬ sep <:+: e.Data ∧
      ¬ newline <:+: e.Typ ∧ ¬ newline <:+: e.Data ∧ e.Data ≠ sep :=
  ⟨by decide,
    receive_invariant "workspace>>1\n>>x\nactivewindow>>kitty,a >> b\n".toList _ (by decide)⟩

/-- C12 (as amended): the type of every event that record parsing returns is
the non-empty text before the first `>>` of one of the records of the chunk.
It is not checked against the defined event types: a type outside the 17
constants is returned all the same, and such an event is then ignored by
`processEvent`, which makes no handler call for it under any subscription. -/
theorem receive_type_unchecked (evs : EventTypes) (chunk : Str) (events : List ReceivedData)
    (h : parseChunk chunk = .ok events) :
    ∀ e ∈ events, (∃ r ∈ Split chunk newline, e.Typ = typePrefix r) ∧ e.Typ ≠ [] ∧
      (e.Typ ∉ evs.all →
        ∀ S : List Str, processEvent evs e S = { calls := [], panic := none }) := by
  intro e he
  rw [parseChunk_ok chunk events h, List.mem_filterMap] at he
  obtain ⟨r, hr, hre⟩ := he
  obtain ⟨ht, _, htn, _, _⟩ := recordEvent_some r e hre
  refine ⟨⟨r, hr, ht⟩, ht ▸ htn, fun hun S => ?_⟩
  have hsw := processEventSwitch_unknown evs e.Typ (Split e.Data comma) hun
  rw [processEvent]
  exact processLoop_none evs e hsw S []

/-- The amended claim on a chunk that holds the type `activewindowv2`. -/
theorem receive_type_unchecked_witness :
    parseChunk "workspace>>1\nactivewindowv2>>55d0a9f0c4a0\n".toList
      = .ok [{ Typ := "workspace".toList, Data := "1".toList },
          { Typ := "activewindowv2".toList, Data := "55d0a9f0c4a0".toList }] ∧
    ∀ e ∈ [({ Typ := "workspace".toList, Data := "1".toList } : ReceivedData),
          { Typ := "activewindowv2".toList, Data := "55d0a9f0c4a0".toList }],
      (∃ r ∈ Split "workspace>>1\nactivewindowv2>>55d0a9f0c4a0\n".toList newline,
        e.Typ = typePrefix r) ∧ e.Typ ≠ [] ∧
      (e.Typ ∉ hyprlandEventTypes.all →
        ∀ S : List Str,
          processEvent hyprlandEventTypes e S = { calls := [], panic := none }) :=
  ⟨by decide,
    receive_type_unchecked hyprlandEventTypes
      "workspace>>1\nactivewindowv2>>55d0a9f0c4a0\n".toList _ (by decide)⟩

/-- C12 (as stated) fails: the chunk `activewindowv2>>55d0a9f0c4a0\n` parses
to an event of type `activewindowv2`, which is none of the 17 defined event
types. -/
theorem receive_type_unchecked_counterexample :
    parseChunk "activewindowv2>>55d0a9f0c4a0\n".toList
      = .ok [{ Typ := "activewindowv2".toList, Data := "55d0a9f0c4a0".toList }] ∧
    "activewindowv2".toList ∉ hyprlandEventTypes.all := by
  decide

/-! ## `Receive`: the trailing record -/

/-- Text appended to the string leaves the leftmost separator where it is. -/
theorem cut_append_right (sp t : Str) : ∀ (s b a : Str),
    Cut sp s = some (b, a) → Cut sp (s ++ t) = some (b, a ++ t)
  | [], b, a, h => by simp [Cut] at h
  | c :: cs, b, a, h => by
    rw [cut_cons] at h
    split_ifs at h with hp
    · simp only [Option.some.injEq, Prod.mk.injEq] at h
      obtain ⟨rfl, rfl⟩ := h
      have hpre : sp <+: c :: cs := List.isPrefixOf_iff_prefix.mp hp
      have hp2 : sp.isPrefixOf (c :: (cs ++ t)) = true :=
        List.isPrefixOf_iff_prefix.mpr (hpre.trans ⟨t, by simp⟩)
      rw [List.cons_append, cut_cons, if_pos hp2, ← List.cons_append,
        List.drop_append_of_le_length hpre.length_le]
    · cases hc : Cut sp cs with
      | none => simp [hc] at h
      | some ba =>
        obtain ⟨b1, a1⟩ := ba
        simp only [hc, Option.some.injEq, Prod.mk.injEq] at h
        obtain ⟨rfl, rfl⟩ := h
        have hs := cut_sound sp cs b1 a1 hc
        have hlen : sp.length ≤ (c :: cs).length := by
          have := congrArg List.length hs
          simp at this
          simp only [List.length_cons]
          omega
        have hp2 : ¬ sp.isPrefixOf (c :: (cs ++ t)) = true := by
          intro hq
          apply hp
          have h1 : sp <+: (c :: cs) ++ t := List.isPrefixOf_iff_prefix.mp hq
          have h2 : (c :: cs) <+: (c :: cs) ++ t := ⟨t, rfl⟩
          exact List.isPrefixOf_iff_prefix.mpr (List.prefix_of_prefix_length_le h1 h2 hlen)
        rw [List.cons_append, cut_cons, if_neg hp2, cut_append_right sp t cs b1 a1 hc]

/-- A newline appended to a chunk adds one empty record after its records. -/
theorem split_append_newline : ∀ (n : Nat) (c : Str), c.length ≤ n →
    Split (c ++ newline) newline = Split c newline ++ [[]]
  | n, c, h => by
    cases hc : Cut newline c with
    | none =>
      have habs := absent_of_cut_none newline c newline_ne_nil hc
      have e : c ++ newline = c ++ (newline ++ []) := by simp
      rw [e, split_line c [] habs, split_of_cut_none newline c newline_ne_nil hc]
      have : Split [] newline = [[]] := by decide
      rw [this]
      rfl
    | some ba =>
      obtain ⟨b, a⟩ := ba
      have hs := cut_sound newline c b a hc
      have hlen : a.length < c.length := by
        have := congrArg List.length hs
        simp [newline] at this
        omega
      match n with
      | 0 => omega
      | m + 1 =>
        rw [split_of_cut_some newline _ b (a ++ newline) newline_ne_nil
            (cut_append_right newline newline c b a hc),
          split_of_cut_some newline c b a newline_ne_nil hc,
          split_append_newline m a (by omega)]
        rfl

/-- An empty record at the end of the records changes nothing. -/
theorem receiveLoop_append_empty : ∀ (raw : List Str) (recv : List ReceivedData),
    receiveLoop recv (raw ++ [[]]) = receiveLoop recv raw
  | [], recv => by simp [receiveLoop]
  | r :: raw, recv => by
    rw [List.cons_append]
    by_cases h : r ≠ [] ∧ ¬ sep <:+: r
    · rw [receiveLoop_cons_no_sep recv r _ h.1 h.2, receiveLoop_cons_no_sep recv r _ h.1 h.2]
    · have h2 : r ≠ [] → sep <:+: r := fun hr => by
        by_contra hc
        exact h ⟨hr, hc⟩
      rw [receiveLoop_cons_sep recv r _ h2, receiveLoop_cons_sep recv r _ h2,
        receiveLoop_append_empty raw]

/-- C17 (as amended): record parsing gives the same outcome, the same events in
the same order or the same panic, on a chunk and on that chunk followed by a
newline. Hence the last record of a chunk, terminated or not, is treated as
any other: when the non-empty records all hold the separator and the last
record has a non-empty type and a non-empty payload other than a bare comma,
parsing returns and its last event is that type with the part of the payload
that has arrived. -/
theorem receive_trailing_record :
    (∀ c : Str, parseChunk (c ++ newline) = parseChunk c) ∧
    (∀ (c r : Str), (∀ x ∈ Split c newline, x ≠ [] → sep <:+: x) →
      (Split c newline).getLast? = some r →
      typePrefix r ≠ [] → payloadOf r ≠ [] → payloadOf r ≠ comma →
      parseChunk c = .ok ((Split c newline).dropLast.filterMap recordEvent
        ++ [{ Typ := typePrefix r, Data := payloadOf r }])) := by
  constructor
  · intro c
    rw [parseChunk, parseChunk, split_append_newline c.length c (Nat.le_refl _),
      receiveLoop_append_empty]
  · intro c r hall hlast ht hp hc
    have hok := receiveLoop_all_sep (Split c newline) [] hall
    have hsplit : Split c newline = (Split c newline).dropLast ++ [r] :=
      (List.dropLast_append_getLast? r hlast).symm
    have hre : recordEvent r = some { Typ := typePrefix r, Data := payloadOf r } := by
      unfold recordEvent
      rw [if_neg]
      rintro (h | h | h | h)
      · subst h
        exact ht (by decide)
      · exact ht h
      · exact hp h
      · exact hc h
    rw [parseChunk, hok]
    conv_lhs => rw [hsplit]
    simp [List.filterMap_append, hre]

/-- C17 (as stated) fails in its consequence: the chunk
`workspace>>1\nactivewindow>>,` ends in an unterminated record with the
non-empty type `activewindow` and the non-empty payload `,`, and parsing
returns the workspace event alone; a payload that is a bare comma is
discarded. -/
theorem receive_trailing_record_counterexample :
    (Split "workspace>>1\nactivewindow>>,".toList newline).getLast?
      = some "activewindow>>,".toList ∧
    typePrefix "activewindow>>,".toList = "activewindow".toList ∧
    payloadOf "activewindow>>,".toList = ",".toList ∧
    parseChunk "workspace>>1\nactivewindow>>,".toList
      = .ok [{ Typ := "workspace".toList, Data := "1".toList }] := by
  decide

/-- The second part on the chunk `workspace>>1\nactivewindow>>kit`, whose last
record is cut off inside its payload. -/
theorem receive_trailing_record_witness :
    ((∀ x ∈ Split "workspace>>1\nactivewindow>>kit".toList newline, x ≠ [] → sep <:+: x) ∧
      (Split "workspace>>1\nactivewindow>>kit".toList newline).getLast?
        = some "activewindow>>kit".toList ∧
      typePrefix "activewindow>>kit".toList ≠ [] ∧
      payloadOf "activewindow>>kit".toList ≠ [] ∧
      payloadOf "activewindow>>kit".toList ≠ comma) ∧
    parseChunk "workspace>>1\nactivewindow>>kit".toList
      = .ok ((Split "workspace>>1\nactivewindow>>kit".toList newline).dropLast.filterMap
          recordEvent
        ++ [{ Typ := typePrefix "activewindow>>kit".toList,
              Data := payloadOf "activewindow>>kit".toList }]) :=
  ⟨by decide,
    receive_trailing_record.2 "workspace>>1\nactivewindow>>kit".toList
      "activewindow>>kit".toList (by decide) (by decide) (by decide) (by decide) (by decide)⟩

/-! ## `receiveAndProcessEvent` and `Subscribe` -/

/-- When `processEvent` panics on no message, the loop makes the calls of every
message, in order. -/
theorem dispatchLoop_ok (evs : EventTypes) (events : List Str) :
    ∀ (msg : List ReceivedData) (calls : List HandlerCall),
      (∀ m ∈ msg, (processEvent evs m events).panic = none) →
      dispatchLoop evs events calls msg
        = { calls := calls ++ (msg.map (fun m => (processEvent evs m events).calls)).flatten,
            panic := none }
  | [], calls, _ => by simp [dispatchLoop]
  | m :: msg, calls, h => by
    have hm := h m (List.mem_cons_self _ _)
    rw [dispatchLoop]
    simp only [hm]
    rw [dispatchLoop_ok evs events msg _ (fun x hx => h x (List.mem_cons_of_mem _ hx))]
    simp

/-- The loop stops at the first message on which `processEvent` panics: the
calls are those of the messages before it and those made for it before the
panic. -/
theorem dispatchLoop_panic (evs : EventTypes) (events : List Str) (m : ReceivedData)
    (post : List ReceivedData) (err : RuntimeError)
    (hm : (processEvent evs m events).panic = some err) :
    ∀ (pre : List ReceivedData) (calls : List HandlerCall),
      (∀ x ∈ pre, (processEvent evs x events).panic = none) →
      dispatchLoop evs events calls (pre ++ m :: post)
        = { calls := calls ++ (pre.map (fun x => (processEvent evs x events).calls)).flatten
              ++ (processEvent evs m events).calls,
            panic := some err }
  | [], calls, _ => by
    rw [List.nil_append, dispatchLoop]
    simp only [hm]
    simp
  | x :: pre, calls, h => by
    have hx := h x (List.mem_cons_self _ _)
    rw [List.cons_append, dispatchLoop]
    simp only [hx]
    rw [dispatchLoop_panic evs events m post err hm pre _
      (fun y hy => h y (List.mem_cons_of_mem _ hy))]
    simp

/-- C14 (as amended): the handler calls of `receiveAndProcessEvent` are, in
arrival order, the calls `processEvent` makes for each received event up to and
including the first event on which it panics: for all events, followed by a
`nil` return, when it panics on none; otherwise for the events before the
panicking one and that one, and the panic goes on. The chunk
`workspace>>1\nactivewindow>>cls,title\n` with the subscription `[workspace]`
gives exactly the call `Workspace("1")`. -/
theorem receiveAndProcessEvent_order {ε : Type} (evs : EventTypes) (events : List Str) :
    (∀ msg : List ReceivedData, (∀ m ∈ msg, (processEvent evs m events).panic = none) →
      (receiveAndProcessEvent evs (.ok (.ok msg)) events : Dispatch ε)
        = { calls := (msg.map (fun m => (processEvent evs m events).calls)).flatten,
            outcome := .returned none }) ∧
    (∀ (pre : List ReceivedData) (m : ReceivedData) (post : List ReceivedData)
        (err : RuntimeError),
      (∀ x ∈ pre, (processEvent evs x events).panic = none) →
      (processEvent evs m events).panic = some err →
      (receiveAndProcessEvent evs (.ok (.ok (pre ++ m :: post))) events : Dispatch ε)
        = { calls := (pre.map (fun x => (processEvent evs x events).calls)).flatten
              ++ (processEvent evs m events).calls,
            outcome := .panicked err }) ∧
    (receiveAndProcessEvent hyprlandEventTypes
        (Receive (.ok "workspace>>1\nactivewindow>>cls,title\n".toList))
        ["workspace".toList] : Dispatch ε)
      = { calls := [.Workspace "1".toList], outcome := .returned none } := by
  refine ⟨fun msg h => ?_, fun pre m post err hpre hm => ?_, ?_⟩
  · simp [receiveAndProcessEvent, dispatchLoop_ok evs events msg [] h]
  · simp [receiveAndProcessEvent, dispatchLoop_panic evs events m post err hm pre [] hpre]
  · rfl

/-- C14 (as stated) fails when `processEvent` panics. The chunk
`activewindow>>x\nworkspace>>1\n` is received as two events; subscribed to
both types, `processEvent` panics on the first (one field, two needed), so
`receiveAndProcessEvent` makes no call at all, while the calls `processEvent`
makes for each event, put together, are `Workspace("1")`. -/
theorem receiveAndProcessEvent_order_counterexample :
    parseChunk "activewindow>>x\nworkspace>>1\n".toList
      = .ok [{ Typ := "activewindow".toList, Data := "x".toList },
          { Typ := "workspace".toList, Data := "1".toList }] ∧
    (receiveAndProcessEvent hyprlandEventTypes
        (Receive (.ok "activewindow>>x\nworkspace>>1\n".toList))
        ["activewindow".toList, "workspace".toList] : Dispatch Unit)
      = { calls := [], outcome := .panicked .indexOutOfRange } ∧
    ([({ Typ := "activewindow".toList, Data := "x".toList } : ReceivedData),
        { Typ := "workspace".toList, Data := "1".toList }].map
      (fun m => (processEvent hyprlandEventTypes m
        ["activewindow".toList, "workspace".toList]).calls)).flatten
      = [.Workspace "1".toList] := by
  decide

/-- Iterations that leave the loop running can be run first: the loop goes on
from the calls and the receives they made. -/
theorem subscribeLoop_append {ε κ : Type} (evs : EventTypes) (events : List Str)
    (rest : List (Iteration ε κ)) (calls2 : List HandlerCall) (n2 : Nat) :
    ∀ (pre : List (Iteration ε κ)) (calls : List HandlerCall) (n : Nat),
      subscribeLoop evs events calls n pre
        = { calls := calls2, receives := n2, outcome := none } →
      subscribeLoop evs events calls n (pre ++ rest) = subscribeLoop evs events calls2 n2 rest
  | [], calls, n, h => by
    simp only [subscribeLoop, SubscribeRun.mk.injEq, and_true] at h
    obtain ⟨rfl, rfl⟩ := h
    rfl
  | it :: pre, calls, n, h => by
    rw [List.cons_append, subscribeLoop]
    rw [subscribeLoop] at h
    cases hctx : it.ctxErr with
    | some err => simp [hctx] at h
    | none =>
      simp only [hctx] at h ⊢
      cases hout : (receiveAndProcessEvent evs it.received events).outcome with
      | panicked e => simp [hout] at h
      | returned r =>
        cases r with
        | some err => simp [hout] at h
        | none =>
          simp only [hout] at h ⊢
          exact subscribeLoop_append evs events rest calls2 n2 pre _ _ h

/-- Whenever the loop returns, it returns an error. -/
theorem subscribeLoop_returned {ε κ : Type} (evs : EventTypes) (events : List Str) :
    ∀ (script : List (Iteration ε κ)) (calls : List HandlerCall) (n : Nat)
      (r : Option (SubscribeError ε κ)),
      (subscribeLoop evs events calls n script).outcome = some (.returned r) → r ≠ none
  | [], calls, n, r, h => by simp [subscribeLoop] at h
  | it :: script, calls, n, r, h => by
    rw [subscribeLoop] at h
    cases hctx : it.ctxErr with
    | some err =>
      simp only [hctx, Option.some.injEq, Outcome.returned.injEq] at h
      subst h
      simp
    | none =>
      simp only [hctx] at h
      cases hout : (receiveAndProcessEvent evs it.received events).outcome with
      | panicked e => simp [hout] at h
      | returned r2 =>
        cases r2 with
        | some err =>
          simp only [hout, Option.some.injEq, Outcome.returned.injEq] at h
          subst h
          simp
        | none =>
          simp only [hout] at h
          exact subscribeLoop_returned evs events script _ _ r h

/-- As long as the context is not done and every receive-and-process step
returns `nil`, the loop keeps running, one receive per iteration. -/
theorem subscribeLoop_running {ε κ : Type} (evs : EventTypes) (events : List Str) :
    ∀ (script : List (Iteration ε κ)) (calls : List HandlerCall) (n : Nat),
      (∀ i ∈ script, i.ctxErr = none ∧
        (receiveAndProcessEvent evs i.received events).outcome = .returned none) →
      (subscribeLoop evs events calls n script).outcome = none ∧
        (subscribeLoop evs events calls n script).receives = n + script.length
  | [], calls, n, _ => by simp [subscribeLoop]
  | it :: script, calls, n, h => by
    obtain ⟨hctx, hout⟩ := h it (List.mem_cons_self _ _)
    rw [subscribeLoop]
    simp only [hctx, hout]
    have ih := subscribeLoop_running evs events script
      (calls ++ (receiveAndProcessEvent evs it.received events).calls) (n + 1)
      (fun i hi => h i (List.mem_cons_of_mem _ hi))
    refine ⟨ih.1, ?_⟩
    rw [ih.2, List.length_cons]
    omega

/-- C15: the context is checked before every read. If the loop of `Subscribe`
reaches an iteration at whose start the context is done, `Subscribe` returns
the error "context is done" wrapping the error of the context, with the
handler calls and the number of calls of `Receive` unchanged from the
iterations before: that iteration neither receives nor dispatches. Whenever
`Subscribe` returns, the error it returns is not `nil`; while the context is
not done and every step succeeds it keeps running. -/
theorem subscribe_context_done {ε κ : Type} (evs : EventTypes) (events : List Str)
    (pre : List (Iteration ε κ)) (it : Iteration ε κ) (post : List (Iteration ε κ))
    (calls : List HandlerCall) (n : Nat) (err : κ)
    (hpre : Subscribe evs events pre = { calls := calls, receives := n, outcome := none })
    (hctx : it.ctxErr = some err) :
    Subscribe evs events (pre ++ it :: post)
      = { calls := calls, receives := n,
          outcome := some (.returned (some (.contextDone err))) } ∧
    (∀ (script : List (Iteration ε κ)) (r : Option (SubscribeError ε κ)),
      (Subscribe evs events script).outcome = some (.returned r) → r ≠ none) ∧
    (∀ script : List (Iteration ε κ),
      (∀ i ∈ script, i.ctxErr = none ∧
        (receiveAndProcessEvent evs i.received events).outcome = .returned none) →
      (Subscribe evs events script).outcome = none ∧
        (Subscribe evs events script).receives = script.length) := by
  refine ⟨?_, fun script r h => ?_, fun script h => ?_⟩
  · rw [Subscribe, subscribeLoop_append evs events (it :: post) calls n pre [] 0 hpre,
      subscribeLoop]
    simp [hctx]
  · exact subscribeLoop_returned evs events script [] 0 r h
  · have := subscribeLoop_running evs events script [] 0 h
    simpa [Subscribe] using this

/-- One iteration that dispatches a workspace event, then an iteration that
finds the context cancelled while a chunk is waiting on the socket. -/
theorem subscribe_context_done_witness :
    (Subscribe hyprlandEventTypes ["workspace".toList]
        [({ ctxErr := none, received := Receive (.ok "workspace>>1\n".toList) } :
          Iteration Unit Str)]
      = { calls := [.Workspace "1".toList], receives := 1, outcome := none } ∧
      ({ ctxErr := some "context canceled".toList,
         received := Receive (.ok "workspace>>2\n".toList) } :
          Iteration Unit Str).ctxErr = some "context canceled".toList) ∧
    (Subscribe hyprlandEventTypes ["workspace".toList]
        ([({ ctxErr := none, received := Receive (.ok "workspace>>1\n".toList) } :
            Iteration Unit Str)]
          ++ { ctxErr := some "context canceled".toList,
               received := Receive (.ok "workspace>>2\n".toList) } :: [])
      = { calls := [.Workspace "1".toList], receives := 1,
          outcome := some (.returned (some (.contextDone "context canceled".toList))) } ∧
    (∀ (script : List (Iteration Unit Str)) (r : Option (SubscribeError Unit Str)),
      (Subscribe hyprlandEventTypes ["workspace".toList] script).outcome
        = some (.returned r) → r ≠ none) ∧
    (∀ script : List (Iteration Unit Str),
      (∀ i ∈ script, i.ctxErr = none ∧
        (receiveAndProcessEvent hyprlandEventTypes i.received
          ["workspace".toList]).outcome = .returned none) →
      (Subscribe hyprlandEventTypes ["workspace".toList] script).outcome = none ∧
        (Subscribe hyprlandEventTypes ["workspace".toList] script).receives
          = script.length)) :=
  ⟨⟨by decide, rfl⟩,
    subscribe_context_done hyprlandEventTypes ["workspace".toList] _ _ [] _ 1 _
      (by decide) rfl⟩

end Hyprland
